import Mathlib

/-!
# Prometheus flattening (`internal/parsers/prometheus.go`)

A shallow embedding of the transformer that turns decoded metric families into
flat string records, followed by theorems about it.

Modelling conventions.

* A Go `map[string]T` is an association list with unique keys: `mapGet` reads a
  key, `mapSet` overwrites the binding in place or appends a new one.  Records
  (`map[string]interface{}`) only ever hold strings, so a record is a
  `List (String × String)`.  A freshly inserted key goes to the end, which fixes
  one of the iteration orders Go allows.
* A `float64` is its IEEE-754 bit pattern.  `math.IsNaN` is computed on the
  bits; the two renderings of the `fmt` package that the code uses on floats
  (`fmt.Sprint` and the verb `%f`) are parameters, collected in `Fmt`.
* `uint64` counters are natural numbers, rendered in decimal.
* Go strings are byte strings.  They are modelled by Lean strings, and
  `strings.Contains` and `strings.Replace` work on characters; on valid UTF-8
  this agrees with the byte-wise functions.
* The decoder and the channel are outside the model: `Prometheus` receives the
  metric families in the order in which the channel delivers them.
-/

set_option linter.dupNamespace false

namespace NriFlex

/-! ## Go maps -/

/-- A record: `map[string]interface{}` whose values are strings. -/
abbrev Record := List (String × String)

/-- Reading `m[k]`: `none` stands for the nil of a missing key. -/
def mapGet {V : Type} : List (String × V) → String → Option V
  | [], _ => none
  | (k', v) :: t, k => if k' = k then some v else mapGet t k

/-- The assignment `m[k] = v`. -/
def mapSet {V : Type} : List (String × V) → String → V → List (String × V)
  | [], k, v => [(k, v)]
  | (k', v') :: t, k, v => if k' = k then (k, v) :: t else (k', v') :: mapSet t k v

/-! ## Strings -/

/-- Go's `strings.Contains`. -/
def stringsContains (s sub : String) : Bool :=
  s.data.tails.any (fun t => sub.data.isPrefixOf t)

/-- The scan of `strings.Replace(s, old, new, -1)` for a non-empty `old`:
`skip` counts the characters of a match that are still to be dropped. -/
def replaceScan (old new : List Char) : Nat → List Char → List Char
  | _, [] => []
  | skip + 1, _ :: cs => replaceScan old new skip cs
  | 0, c :: cs =>
    if old.isPrefixOf (c :: cs) then new ++ replaceScan old new (old.length - 1) cs
    else c :: replaceScan old new 0 cs

/-- Go's `strings.Replace(s, old, new, -1)`, for a non-empty `old`. -/
def stringsReplaceAll (s old new : String) : String :=
  String.mk (replaceScan old.data new.data 0 s.data)

/-! ## Floating point -/

/-- A `float64`, as its IEEE-754 bit pattern. -/
structure Float64 where
  bits : Nat
  deriving DecidableEq, Repr

/-- The zero value of `float64`. -/
def Float64.zero : Float64 := ⟨0⟩

/-- Go's `math.IsNaN`: all exponent bits set and a non-zero fraction. -/
def Float64.isNaN (x : Float64) : Bool :=
  (x.bits / 2 ^ 52) % 2048 == 2047 && x.bits % 2 ^ 52 != 0

/-- The renderings of package `fmt` applied to floats. -/
structure Fmt where
  /-- The rendering `fmt.Sprint(x)` of a `float64`. -/
  sprintFloat : Float64 → String
  /-- The rendering `fmt.Sprintf("%f", x)` of a `float64`. -/
  sprintfF : Float64 → String

/-- The rendering `fmt.Sprint(n)` of a `uint64`. -/
def sprintUint (n : Nat) : String := toString n

/-- The natural number a bit pattern stands for, when it is a non-negative
integer below `10 ^ 6`. -/
def Float64.smallNat? (x : Float64) : Option Nat :=
  let e := (x.bits / 2 ^ 52) % 2048
  let f := x.bits % 2 ^ 52
  if x.bits = 0 then some 0
  else if x.bits / 2 ^ 63 = 0 ∧ 1023 ≤ e ∧ e ≤ 1075 ∧ (2 ^ 52 + f) % 2 ^ (1075 - e) = 0
      ∧ (2 ^ 52 + f) / 2 ^ (1075 - e) < 10 ^ 6 then
    some ((2 ^ 52 + f) / 2 ^ (1075 - e))
  else none

/-- A formatter that agrees with Go on the non-negative integers below `10 ^ 6`
(`fmt.Sprint` prints their decimal digits, `%f` the digits followed by six
zeros); any other bit pattern is rendered as a tagged bit pattern.  It serves to
evaluate the definitions on concrete inputs. -/
def integralFmt : Fmt where
  sprintFloat x :=
    match x.smallNat? with
    | some n => toString n
    | none => "float64bits:" ++ toString x.bits
  sprintfF x :=
    match x.smallNat? with
    | some n => toString n ++ ".000000"
    | none => "float64bits:" ++ toString x.bits ++ ".f"

/-! ## Data model (`dto` and `load`) -/

/-- The enumeration `dto.MetricType`. -/
inductive MetricType where
  | COUNTER | GAUGE | SUMMARY | UNTYPED | HISTOGRAM
  deriving DecidableEq, Repr

/-- The method `String()` of `dto.MetricType`. -/
def MetricType.String : MetricType → String
  | .COUNTER => "COUNTER"
  | .GAUGE => "GAUGE"
  | .SUMMARY => "SUMMARY"
  | .UNTYPED => "UNTYPED"
  | .HISTOGRAM => "HISTOGRAM"

/-- The message `dto.LabelPair`. -/
structure LabelPair where
  Name : String
  Value : String
  deriving DecidableEq, Repr

/-- The message `dto.Quantile`. -/
structure Quantile where
  Quantile : Float64
  Value : Float64
  deriving DecidableEq, Repr

/-- The message `dto.Summary`. -/
structure Summary where
  SampleCount : Nat
  SampleSum : Float64
  Quantile : List NriFlex.Quantile
  deriving DecidableEq, Repr

/-- The message `dto.Bucket`. -/
structure Bucket where
  CumulativeCount : Nat
  UpperBound : Float64
  deriving DecidableEq, Repr

/-- The message `dto.Histogram`. -/
structure Histogram where
  SampleCount : Nat
  SampleSum : Float64
  Bucket : List NriFlex.Bucket
  deriving DecidableEq, Repr

/-- The message `dto.Metric`; a nil sub-message is `none`. -/
structure Metric where
  Label : List LabelPair
  Gauge : Option Float64
  Counter : Option Float64
  Summary : Option NriFlex.Summary
  Untyped : Option Float64
  Histogram : Option NriFlex.Histogram
  deriving DecidableEq, Repr

/-- The message `dto.MetricFamily`. -/
structure MetricFamily where
  Name : String
  Help : String
  Typ : MetricType
  Metric : List NriFlex.Metric
  deriving DecidableEq, Repr

/-- The fields of `load.Prometheus` that the transformer reads. -/
structure PrometheusConfig where
  Unflatten : Bool
  FlattenedEvent : String
  KeyMerge : List String
  CustomAttributes : List (String × String)
  Histogram : Bool
  Summary : Bool
  GoMetrics : Bool
  deriving DecidableEq, Repr

/-- The fields of `load.API` that the transformer reads. -/
structure API where
  Name : String
  Prometheus : PrometheusConfig
  deriving DecidableEq, Repr

/-- The getter chain `m.GetSummary().GetSampleCount()`. -/
def Metric.summarySampleCount (m : Metric) : Nat :=
  match m.Summary with
  | some s => s.SampleCount
  | none => 0

/-- The getter chain `m.GetSummary().GetSampleSum()`. -/
def Metric.summarySampleSum (m : Metric) : Float64 :=
  match m.Summary with
  | some s => s.SampleSum
  | none => Float64.zero

/-- The getter chain `m.GetSummary().Quantile`. -/
def Metric.summaryQuantiles (m : Metric) : List NriFlex.Quantile :=
  match m.Summary with
  | some s => s.Quantile
  | none => []

/-- The getter chain `m.GetHistogram().GetSampleCount()`. -/
def Metric.histogramSampleCount (m : Metric) : Nat :=
  match m.Histogram with
  | some h => h.SampleCount
  | none => 0

/-- The getter chain `m.GetHistogram().GetSampleSum()`; the transformer never
calls it. -/
def Metric.histogramSampleSum (m : Metric) : Float64 :=
  match m.Histogram with
  | some h => h.SampleSum
  | none => Float64.zero

/-- The getter chain `m.GetHistogram().Bucket`. -/
def Metric.histogramBuckets (m : Metric) : List NriFlex.Bucket :=
  match m.Histogram with
  | some h => h.Bucket
  | none => []

/-! ## The transformer -/

/-- The three stores `prometheusNewFamily` writes through its pointers. -/
structure Stores where
  dataStore : List Record
  flattenedSample : Record
  sampleKeys : List (String × Record)
  deriving DecidableEq, Repr

/-- `getValue`. -/
def getValue (m : Metric) : Float64 :=
  match m.Gauge with
  | some v => v
  | none =>
    match m.Counter with
    | some v => v
    | none =>
      match m.Untyped with
      | some v => v
      | none => Float64.zero

/-- `applyCustomAttributes`. -/
def applyCustomAttributes (sample : Record) (attributes : List (String × String)) : Record :=
  attributes.foldl (fun r kv => mapSet r kv.1 kv.2) sample

/-- `prometheusMakeLabels`. -/
def prometheusMakeLabels (m : Metric) (metric : Record) : Record :=
  m.Label.foldl (fun r lp => mapSet r lp.Name lp.Value) metric

/-- `prometheusMakeQuantiles`. -/
def prometheusMakeQuantiles (fmt : Fmt) (m : Metric) (metric : Record) (dtoMF : MetricFamily)
    (unflatten : Bool) : Record :=
  m.summaryQuantiles.foldl
    (fun r q =>
      if !q.Value.isNaN then
        if unflatten then mapSet r (fmt.sprintfF q.Quantile) (fmt.sprintFloat q.Value)
        else mapSet r (dtoMF.Name ++ ("." ++ fmt.sprintfF q.Quantile)) (fmt.sprintFloat q.Value)
      else r)
    metric

/-- `prometheusMakeBuckets`. -/
def prometheusMakeBuckets (fmt : Fmt) (m : Metric) (metric : Record) (dtoMF : MetricFamily)
    (unflatten : Bool) : Record :=
  m.histogramBuckets.foldl
    (fun r b =>
      if unflatten then mapSet r (fmt.sprintfF b.UpperBound) (sprintUint b.CumulativeCount)
      else mapSet r (dtoMF.Name ++ ("." ++ fmt.sprintfF b.UpperBound))
        (sprintUint b.CumulativeCount))
    metric

/-- The loop of `prometheusMakeMergedMeta`: the key and the label record. -/
def mergedMetaLoop (labels : List LabelPair) (acc : String × Record) : String × Record :=
  labels.foldl (fun a label => (a.1 ++ label.Value, mapSet a.2 label.Name label.Value)) acc

/-- `prometheusMakeMergedMeta`: the returned key and the table afterwards. -/
def prometheusMakeMergedMeta (sampleKeys : List (String × Record)) (m : Metric) :
    String × List (String × Record) :=
  let r := mergedMetaLoop m.Label ("", [])
  match mapGet sampleKeys r.1 with
  | none => (r.1, mapSet sampleKeys r.1 r.2)
  | some _ => (r.1, sampleKeys)

/-- The assignment `(*sampleKeys)[sampleKey][field] = value`.  The inner map is
shared, so the table sees the write.  Go panics on a nil inner map; the code
only reaches the assignment after `prometheusMakeMergedMeta` has bound the key,
and the table is returned as it is in that unreachable case. -/
def setSampleField (sampleKeys : List (String × Record)) (sampleKey field value : String) :
    List (String × Record) :=
  match mapGet sampleKeys sampleKey with
  | some r => mapSet sampleKeys sampleKey (mapSet r field value)
  | none => sampleKeys

/-- The event name of a roll-up record (lines 85-93 and 113-121). -/
def rollupEvent (api : API) (suffix : String) : String :=
  let defaultEvent :=
    if api.Prometheus.FlattenedEvent ≠ "" then api.Prometheus.FlattenedEvent else api.Name
  if stringsContains defaultEvent "Sample" then stringsReplaceAll defaultEvent "Sample" suffix
  else defaultEvent ++ suffix

/-- The key under which a label-less sample enters the flattened sample: the
loop over `KeyMerge` with its `break` (lines 147-153). -/
def flattenedKey (name : String) (metric : Record) : List String → String
  | [] => name
  | keyMerge :: rest =>
    match mapGet metric keyMerge with
    | some v => name ++ ("." ++ v)
    | none => flattenedKey name metric rest

/-- The record `metric` as it stands after line 74. -/
def newMetric (dtoMF : MetricFamily) (api : API) (m : Metric) : Record :=
  prometheusMakeLabels m
    (applyCustomAttributes
      (mapSet (mapSet (mapSet [] "name" dtoMF.Name) "help" dtoMF.Help) "type" dtoMF.Typ.String)
      api.Prometheus.CustomAttributes)

/-- The merge of a labelled summary or histogram sample (lines 98-103 and
126-131); both read the count and the sum through `GetSummary`. -/
def mergeCountSum (fmt : Fmt) (dtoMF : MetricFamily) (m : Metric) (kind : String)
    (st : Stores) : Stores :=
  let r := prometheusMakeMergedMeta st.sampleKeys m
  let key := dtoMF.Name ++ kind
  let t1 := setSampleField r.2 r.1 (key ++ ".count") (sprintUint m.summarySampleCount)
  let t2 := setSampleField t1 r.1 (key ++ ".sum") (fmt.sprintFloat m.summarySampleSum)
  { st with sampleKeys := t2 }

/-- The record of a summary sample in fully-expanded mode (lines 78-80). -/
def summaryExpanded (fmt : Fmt) (dtoMF : MetricFamily) (api : API) (m : Metric)
    (metric : Record) : Record :=
  let metric := mapSet metric "count" (sprintUint m.summarySampleCount)
  let metric := mapSet metric "sum" (fmt.sprintFloat m.summarySampleSum)
  prometheusMakeQuantiles fmt m metric dtoMF api.Prometheus.Unflatten

/-- The roll-up record of a summary sample (lines 83-95). -/
def summaryRollup (fmt : Fmt) (dtoMF : MetricFamily) (api : API) (m : Metric)
    (metric : Record) : Record :=
  let metric := mapSet metric "count" (sprintUint m.summarySampleCount)
  let metric := mapSet metric "sum" (fmt.sprintFloat m.summarySampleSum)
  let metric := mapSet metric "event_type" (rollupEvent api "SummarySample")
  prometheusMakeQuantiles fmt m metric dtoMF true

/-- The record of a histogram sample in fully-expanded mode (lines 106-108);
the sum is read through `GetSummary`. -/
def histogramExpanded (fmt : Fmt) (dtoMF : MetricFamily) (api : API) (m : Metric)
    (metric : Record) : Record :=
  let metric := mapSet metric "count" (sprintUint m.histogramSampleCount)
  let metric := mapSet metric "sum" (fmt.sprintFloat m.summarySampleSum)
  prometheusMakeBuckets fmt m metric dtoMF api.Prometheus.Unflatten

/-- The roll-up record of a histogram sample (lines 111-123); the sum is read
through `GetSummary`. -/
def histogramRollup (fmt : Fmt) (dtoMF : MetricFamily) (api : API) (m : Metric)
    (metric : Record) : Record :=
  let metric := mapSet metric "count" (sprintUint m.histogramSampleCount)
  let metric := mapSet metric "sum" (fmt.sprintFloat m.summarySampleSum)
  let metric := mapSet metric "event_type" (rollupEvent api "HistogramSample")
  prometheusMakeBuckets fmt m metric dtoMF true

/-- The field name of a labelled gauge, counter or untyped sample in its merge
record (lines 139-144). -/
def valueKey (dtoMF : MetricFamily) : String :=
  if dtoMF.Typ = MetricType.GAUGE then dtoMF.Name ++ ".gauge"
  else if dtoMF.Typ = MetricType.COUNTER then dtoMF.Name ++ ".counter"
  else dtoMF.Name

/-- One iteration of the loop of `prometheusNewFamily`, after the exclusion
test (lines 69-157). -/
def sampleStep (fmt : Fmt) (dtoMF : MetricFamily) (api : API) (m : Metric) (st : Stores) :
    Stores :=
  let metric := newMetric dtoMF api m
  if dtoMF.Typ = MetricType.SUMMARY then
    let st1 :=
      if api.Prometheus.Unflatten then
        { st with dataStore := st.dataStore ++ [summaryExpanded fmt dtoMF api m metric] }
      else if api.Prometheus.Summary then
        { st with dataStore := st.dataStore ++ [summaryRollup fmt dtoMF api m metric] }
      else st
    if 0 < m.Label.length ∧ api.Prometheus.Summary = false ∧ api.Prometheus.Unflatten = false then
      mergeCountSum fmt dtoMF m ".summary" st1
    else st1
  else if dtoMF.Typ = MetricType.HISTOGRAM then
    let st1 :=
      if api.Prometheus.Unflatten then
        { st with dataStore := st.dataStore ++ [histogramExpanded fmt dtoMF api m metric] }
      else if api.Prometheus.Histogram then
        { st with dataStore := st.dataStore ++ [histogramRollup fmt dtoMF api m metric] }
      else st
    if 0 < m.Label.length ∧ api.Prometheus.Histogram = false ∧ api.Prometheus.Unflatten = false then
      mergeCountSum fmt dtoMF m ".histogram" st1
    else st1
  else
    let metric := mapSet metric "value" (fmt.sprintFloat (getValue m))
    if api.Prometheus.Unflatten then
      { st with dataStore := st.dataStore ++ [metric] }
    else if 0 < m.Label.length then
      let r := prometheusMakeMergedMeta st.sampleKeys m
      { st with
        sampleKeys := setSampleField r.2 r.1 (valueKey dtoMF) (fmt.sprintFloat (getValue m)) }
    else
      let key := flattenedKey dtoMF.Name metric api.Prometheus.KeyMerge
      let flat := mapSet st.flattenedSample "name" "main"
      { st with flattenedSample := mapSet flat key (fmt.sprintFloat (getValue m)) }

/-- The exclusion test of line 65. -/
def excluded (dtoMF : MetricFamily) (api : API) : Bool :=
  !api.Prometheus.GoMetrics && stringsContains dtoMF.Name "go_"

/-- The loop of `prometheusNewFamily` over the remaining samples, with its
`break`. -/
def newFamilyLoop (fmt : Fmt) (dtoMF : MetricFamily) (api : API) : List Metric → Stores → Stores
  | [], st => st
  | m :: rest, st =>
    if excluded dtoMF api then st
    else newFamilyLoop fmt dtoMF api rest (sampleStep fmt dtoMF api m st)

/-- `prometheusNewFamily`. -/
def prometheusNewFamily (fmt : Fmt) (dtoMF : MetricFamily) (api : API) (st : Stores) : Stores :=
  newFamilyLoop fmt dtoMF api dtoMF.Metric st

/-- The flattened sample as `Prometheus` initialises it (lines 35-40). -/
def initialFlattened (api : API) : Record :=
  if api.Prometheus.FlattenedEvent ≠ "" then
    mapSet [] "event_type" api.Prometheus.FlattenedEvent
  else mapSet [] "event_type" (api.Name ++ "Sample")

/-- The stores once every family of the channel has been consumed (line 46). -/
def consumeFamilies (fmt : Fmt) (api : API) (families : List MetricFamily)
    (dataStore : List Record) : Stores :=
  families.foldl (fun st mf => prometheusNewFamily fmt mf api st)
    { dataStore := dataStore, flattenedSample := initialFlattened api, sampleKeys := [] }

/-- `Prometheus`, on the families the channel delivers: the data store
afterwards. -/
def Prometheus (fmt : Fmt) (families : List MetricFamily) (dataStore : List Record) (api : API) :
    List Record :=
  let st := consumeFamilies fmt api families dataStore
  let ds := st.dataStore ++ st.sampleKeys.map Prod.snd
  if 0 < st.flattenedSample.length ∧ api.Prometheus.Unflatten = false then
    ds ++ [applyCustomAttributes st.flattenedSample api.Prometheus.CustomAttributes]
  else ds

/-! ## Auxiliary definitions for the statements -/

/-- Writing a list of bindings into a record, first to last. -/
def writeAll (r : Record) (kvs : List (String × String)) : Record :=
  kvs.foldl (fun r kv => mapSet r kv.1 kv.2) r

/-- The value the last write to `k` in a list of writes stores, if any. -/
def lastWrite : List (String × String) → String → Option String
  | [], _ => none
  | kv :: rest, k =>
    match lastWrite rest k with
    | some v => some v
    | none => if kv.1 = k then some kv.2 else none

/-- The value of the last label of the sample named `n`, if any: the value of
the label named `n` when label names are distinct. -/
def lastLabelValue (m : Metric) (n : String) : Option String :=
  lastWrite (m.Label.map (fun l => (l.Name, l.Value))) n

/-- The keys a per-sample record can receive after its labels have been
written: the metric fields and the quantile and bucket keys of the sample. -/
def lateKeys (fmt : Fmt) (m : Metric) : List String :=
  ["value", "count", "sum", "event_type"]
    ++ m.summaryQuantiles.map (fun q => fmt.sprintfF q.Quantile)
    ++ m.histogramBuckets.map (fun b => fmt.sprintfF b.UpperBound)

/-- The record a sample contributes to the data store when `Unflatten` is set
(lines 78-81, 106-109 and 133-136). -/
def expandedRecord (fmt : Fmt) (dtoMF : MetricFamily) (api : API) (m : Metric) : Record :=
  if dtoMF.Typ = MetricType.SUMMARY then
    summaryExpanded fmt dtoMF api m (newMetric dtoMF api m)
  else if dtoMF.Typ = MetricType.HISTOGRAM then
    histogramExpanded fmt dtoMF api m (newMetric dtoMF api m)
  else mapSet (newMetric dtoMF api m) "value" (fmt.sprintFloat (getValue m))

/-- The roll-up record of a sample of a summary or histogram family (lines
83-96 and 111-124). -/
def rollupRecord (fmt : Fmt) (dtoMF : MetricFamily) (api : API) (m : Metric) : Record :=
  if dtoMF.Typ = MetricType.SUMMARY then
    summaryRollup fmt dtoMF api m (newMetric dtoMF api m)
  else histogramRollup fmt dtoMF api m (newMetric dtoMF api m)

/-- The record a sample appends to the data store, if it appends one. -/
def perSampleRecord? (fmt : Fmt) (dtoMF : MetricFamily) (api : API) (m : Metric) :
    Option Record :=
  if api.Prometheus.Unflatten then some (expandedRecord fmt dtoMF api m)
  else if dtoMF.Typ = MetricType.SUMMARY ∧ api.Prometheus.Summary = true then
    some (rollupRecord fmt dtoMF api m)
  else if dtoMF.Typ = MetricType.HISTOGRAM ∧ api.Prometheus.Histogram = true then
    some (rollupRecord fmt dtoMF api m)
  else none

/-- The record bound to the merge key of a sample once
`prometheusMakeMergedMeta` has run: the one already there, or the label record
of the sample. -/
def mergeRecord (sampleKeys : List (String × Record)) (m : Metric) : Record :=
  match mapGet sampleKeys (mergedMetaLoop m.Label ("", [])).1 with
  | some r => r
  | none => (mergedMetaLoop m.Label ("", [])).2

/-- The fields a labelled sample writes into its merge record. -/
def mergeFields (dtoMF : MetricFamily) : List String :=
  if dtoMF.Typ = MetricType.SUMMARY then
    [dtoMF.Name ++ ".summary" ++ ".count", dtoMF.Name ++ ".summary" ++ ".sum"]
  else if dtoMF.Typ = MetricType.HISTOGRAM then
    [dtoMF.Name ++ ".histogram" ++ ".count", dtoMF.Name ++ ".histogram" ++ ".sum"]
  else [valueKey dtoMF]

/-! ## Example inputs -/

/-- The float `5`. -/
def float5 : Float64 := ⟨0x4014000000000000⟩

/-- The float `2`. -/
def float2 : Float64 := ⟨0x4000000000000000⟩

/-- A sample holding a counter. -/
def counterSample (labels : List LabelPair) (v : Float64) : Metric :=
  { Label := labels, Gauge := none, Counter := some v, Summary := none, Untyped := none,
    Histogram := none }

/-- A sample holding a gauge. -/
def gaugeSample (labels : List LabelPair) (v : Float64) : Metric :=
  { Label := labels, Gauge := some v, Counter := none, Summary := none, Untyped := none,
    Histogram := none }

/-- A sample holding a summary. -/
def summarySample (labels : List LabelPair) (s : Summary) : Metric :=
  { Label := labels, Gauge := none, Counter := none, Summary := some s, Untyped := none,
    Histogram := none }

/-- A sample holding a histogram. -/
def histogramSample (labels : List LabelPair) (h : Histogram) : Metric :=
  { Label := labels, Gauge := none, Counter := none, Summary := none, Untyped := none,
    Histogram := some h }

/-- The family of the example of the specification: `http_requests_total`, a
counter with the samples `{method="get"} 5` and `{method="post"} 2`. -/
def httpRequestsTotal : MetricFamily :=
  { Name := "http_requests_total", Help := "requests", Typ := MetricType.COUNTER,
    Metric := [counterSample [⟨"method", "get"⟩] float5,
      counterSample [⟨"method", "post"⟩] float2] }

/-- A configuration with every flag off and the given static attributes. -/
def plainApi (attrs : List (String × String)) : API :=
  { Name := "app",
    Prometheus :=
      { Unflatten := false, FlattenedEvent := "", KeyMerge := [], CustomAttributes := attrs,
        Histogram := false, Summary := false, GoMetrics := false } }

/-- The configuration `plainApi` with `Unflatten` set. -/
def unflattenApi (attrs : List (String × String)) : API :=
  { plainApi attrs with Prometheus := { (plainApi attrs).Prometheus with Unflatten := true } }

/-- The stores at the start of a payload, for a configuration. -/
def initialStores (api : API) : Stores :=
  { dataStore := [], flattenedSample := initialFlattened api, sampleKeys := [] }

/-! ## Auxiliary definitions for the flattened sample, the expanders and the output -/

/-- The record `metric` of a gauge, counter or untyped sample as it stands after
line 133. -/
def valueMetric (fmt : Fmt) (dtoMF : MetricFamily) (api : API) (m : Metric) : Record :=
  mapSet (newMetric dtoMF api m) "value" (fmt.sprintFloat (getValue m))

/-- The base event name of a roll-up record: `FlattenedEvent` when it is not
empty, the name of the API otherwise (lines 85-88 and 113-116). -/
def rollupBase (api : API) : String :=
  if api.Prometheus.FlattenedEvent ≠ "" then api.Prometheus.FlattenedEvent else api.Name

/-- The suffix of the event name of a roll-up record, by family type. -/
def rollupSuffix (dtoMF : MetricFamily) : String :=
  if dtoMF.Typ = MetricType.SUMMARY then "SummarySample" else "HistogramSample"

/-- The key `prometheusMakeQuantiles` uses for a quantile entry. -/
def quantileKey (fmt : Fmt) (dtoMF : MetricFamily) (unflatten : Bool) (q : Quantile) : String :=
  if unflatten then fmt.sprintfF q.Quantile else dtoMF.Name ++ ("." ++ fmt.sprintfF q.Quantile)

/-- The bindings of the quantile entries whose value is not NaN, in entry
order. -/
def quantileWrites (fmt : Fmt) (m : Metric) (dtoMF : MetricFamily) (unflatten : Bool) :
    List (String × String) :=
  (m.summaryQuantiles.filter (fun q => !q.Value.isNaN)).map
    (fun q => (quantileKey fmt dtoMF unflatten q, fmt.sprintFloat q.Value))

/-- The key `prometheusMakeBuckets` uses for a bucket. -/
def bucketKey (fmt : Fmt) (dtoMF : MetricFamily) (unflatten : Bool) (b : Bucket) : String :=
  if unflatten then fmt.sprintfF b.UpperBound else dtoMF.Name ++ ("." ++ fmt.sprintfF b.UpperBound)

/-- The bindings of the buckets, in bucket order. -/
def bucketWrites (fmt : Fmt) (m : Metric) (dtoMF : MetricFamily) (unflatten : Bool) :
    List (String × String) :=
  m.histogramBuckets.map
    (fun b => (bucketKey fmt dtoMF unflatten b, sprintUint b.CumulativeCount))

/-- Processing a sequence of samples, each with its family, in order. -/
def processSamples (fmt : Fmt) (api : API) (samples : List (MetricFamily × Metric))
    (st : Stores) : Stores :=
  samples.foldl (fun s p => sampleStep fmt p.1 api p.2 s) st

/-- The records the samples of a payload append to the data store, in family
order and sample order. -/
def perSampleRecords (fmt : Fmt) (api : API) (families : List MetricFamily) : List Record :=
  (families.filter (fun mf => !excluded mf api)).flatMap
    (fun mf => mf.Metric.flatMap (fun m => (perSampleRecord? fmt mf api m).toList))

/-- A family has no sample that reaches the flattened sample: it is excluded,
or a summary or histogram family, or all its samples carry labels. -/
def noFlattenedSample (api : API) (mf : MetricFamily) : Prop :=
  excluded mf api = true ∨ mf.Typ = MetricType.SUMMARY ∨ mf.Typ = MetricType.HISTOGRAM
    ∨ ∀ m ∈ mf.Metric, 0 < m.Label.length

/-- A NaN: all exponent bits and the top fraction bit set. -/
def floatNaN : Float64 := ⟨0x7FF8000000000000⟩

/-- The configuration `plainApi` with both roll-up flags set and the given
`FlattenedEvent`. -/
def rollupApi (flattenedEvent : String) : API :=
  { Name := "app",
    Prometheus :=
      { Unflatten := false, FlattenedEvent := flattenedEvent, KeyMerge := [],
        CustomAttributes := [("event_type", "static")], Histogram := true, Summary := true,
        GoMetrics := false } }

/-- The bindings a sequence of label-less gauge, counter or untyped samples
writes into the flattened sample when no `KeyMerge` candidate matches: for each
sample the constant `name=main`, then the metric name with the rendered
value. -/
def flattenedWrites (fmt : Fmt) (samples : List (MetricFamily × Metric)) :
    List (String × String) :=
  samples.flatMap (fun p => [("name", "main"), (p.1.Name, fmt.sprintFloat (getValue p.2))])

/-- A gauge family without help text. -/
def gaugeFamily (name : String) (samples : List Metric) : MetricFamily :=
  { Name := name, Help := "", Typ := MetricType.GAUGE, Metric := samples }

/-- The configuration `plainApi` with the given `KeyMerge` candidates. -/
def keyMergeApi (attrs : List (String × String)) (keyMerge : List String) : API :=
  { plainApi attrs with Prometheus := { (plainApi attrs).Prometheus with KeyMerge := keyMerge } }

instance (api : API) (mf : MetricFamily) : Decidable (noFlattenedSample api mf) := by
  unfold noFlattenedSample
  exact inferInstance

/-! ## Lemmas and theorems -/

theorem mapGet_mapSet_self {V : Type} (m : List (String × V)) (k : String) (v : V) :
    mapGet (mapSet m k v) k = some v := by
  induction m with
  | nil => simp [mapSet, mapGet]
  | cons p t ih =>
    obtain ⟨k', v'⟩ := p
    by_cases h : k' = k
    · simp [mapSet, mapGet, h]
    · simp [mapSet, mapGet, h, ih]

theorem mapGet_mapSet_ne {V : Type} (m : List (String × V)) (k k' : String) (v : V)
    (h : k' ≠ k) : mapGet (mapSet m k v) k' = mapGet m k' := by
  induction m with
  | nil => simp [mapSet, mapGet, Ne.symm h]
  | cons p t ih =>
    obtain ⟨k0, v0⟩ := p
    by_cases h0 : k0 = k
    · subst h0
      simp [mapSet, mapGet, Ne.symm h]
    · by_cases h1 : k0 = k'
      · subst h1
        simp [mapSet, mapGet, h0]
      · simp [mapSet, mapGet, h0, h1, ih]

theorem mapSet_of_mapGet_none {V : Type} (m : List (String × V)) (k : String) (v : V)
    (h : mapGet m k = none) : mapSet m k v = m ++ [(k, v)] := by
  induction m with
  | nil => rfl
  | cons p t ih =>
    obtain ⟨k0, v0⟩ := p
    by_cases h0 : k0 = k
    · simp [mapGet, h0] at h
    · simp [mapGet, h0] at h
      simp [mapSet, h0, ih h]

theorem lastWrite_eq_none {kvs : List (String × String)} {k : String}
    (h : k ∉ kvs.map Prod.fst) : lastWrite kvs k = none := by
  induction kvs with
  | nil => rfl
  | cons kv rest ih =>
    simp only [List.map_cons, List.mem_cons, not_or] at h
    simp [lastWrite, ih h.2, Ne.symm h.1]

theorem lastWrite_of_nodup {kvs : List (String × String)} (hn : (kvs.map Prod.fst).Nodup)
    (kv : String × String) (hm : kv ∈ kvs) : lastWrite kvs kv.1 = some kv.2 := by
  induction kvs with
  | nil => simp at hm
  | cons p rest ih =>
    simp only [List.map_cons, List.nodup_cons] at hn
    rcases List.mem_cons.1 hm with h | h
    · subst h
      simp [lastWrite, lastWrite_eq_none hn.1]
    · simp [lastWrite, ih hn.2 h]

theorem mapGet_writeAll (attrs : List (String × String)) (r : Record)
    (k : String) :
    mapGet (writeAll r attrs) k
      = match lastWrite attrs k with
        | some v => some v
        | none => mapGet r k := by
  induction attrs generalizing r with
  | nil => rfl
  | cons kv rest ih =>
    have hstep : writeAll r (kv :: rest) = writeAll (mapSet r kv.1 kv.2) rest := rfl
    rw [hstep, ih]
    cases hl : lastWrite rest k with
    | some v => simp [lastWrite, hl]
    | none =>
      by_cases hk : kv.1 = k
      · subst hk
        simp [lastWrite, hl, mapGet_mapSet_self]
      · simp [lastWrite, hl, hk, mapGet_mapSet_ne _ _ _ _ (Ne.symm hk)]


theorem applyCustomAttributes_eq (r : Record) (attrs : List (String × String)) :
    applyCustomAttributes r attrs = writeAll r attrs := rfl

theorem prometheusMakeLabels_eq (m : Metric) (r : Record) :
    prometheusMakeLabels m r = writeAll r (m.Label.map (fun l => (l.Name, l.Value))) := by
  simp [prometheusMakeLabels, writeAll, List.foldl_map]

theorem mapGet_writeAll_of_not_mem (attrs : List (String × String)) (r : Record) (k : String)
    (h : k ∉ attrs.map Prod.fst) : mapGet (writeAll r attrs) k = mapGet r k := by
  rw [mapGet_writeAll, lastWrite_eq_none h]

theorem mapGet_foldl_of_forall {α : Type} (f : Record → α → Record) (k : String) (xs : List α)
    (h : ∀ r x, x ∈ xs → mapGet (f r x) k = mapGet r k) (r : Record) :
    mapGet (xs.foldl f r) k = mapGet r k := by
  induction xs generalizing r with
  | nil => rfl
  | cons x rest ih =>
    rw [List.foldl_cons, ih (fun r y hy => h r y (List.mem_cons_of_mem _ hy)),
      h r x (List.mem_cons_self _ _)]

theorem mergedMetaLoop_fst (labels : List LabelPair) (acc : String × Record) :
    (mergedMetaLoop labels acc).1 = labels.foldl (fun a l => a ++ l.Value) acc.1 := by
  induction labels generalizing acc with
  | nil => rfl
  | cons l rest ih =>
    unfold mergedMetaLoop at ih ⊢
    rw [List.foldl_cons]
    exact ih _

theorem mergedMetaLoop_snd (labels : List LabelPair) (acc : String × Record) :
    (mergedMetaLoop labels acc).2 = writeAll acc.2 (labels.map (fun l => (l.Name, l.Value))) := by
  induction labels generalizing acc with
  | nil => rfl
  | cons l rest ih =>
    unfold mergedMetaLoop at ih ⊢
    rw [List.foldl_cons, ih]
    rfl

theorem mergedMetaLoop_key_eq_join (labels : List LabelPair) :
    (mergedMetaLoop labels ("", [])).1 = String.join (labels.map LabelPair.Value) := by
  rw [mergedMetaLoop_fst, String.join, List.foldl_map]

theorem mapGet_labelRecord (m : Metric) (n : String) :
    mapGet (mergedMetaLoop m.Label ("", [])).2 n = lastLabelValue m n := by
  rw [mergedMetaLoop_snd, mapGet_writeAll, lastLabelValue]
  cases lastWrite (m.Label.map (fun l => (l.Name, l.Value))) n <;> simp [mapGet]

theorem prometheusMakeMergedMeta_fst (t : List (String × Record)) (m : Metric) :
    (prometheusMakeMergedMeta t m).1 = (mergedMetaLoop m.Label ("", [])).1 := by
  simp only [prometheusMakeMergedMeta]
  split <;> rfl

theorem prometheusMakeMergedMeta_get_self (t : List (String × Record)) (m : Metric) :
    mapGet (prometheusMakeMergedMeta t m).2 (prometheusMakeMergedMeta t m).1
      = some (mergeRecord t m) := by
  simp only [prometheusMakeMergedMeta, mergeRecord]
  cases h : mapGet t (mergedMetaLoop m.Label ("", [])).1 with
  | none => simp [mapGet_mapSet_self]
  | some r => simp [h]

theorem prometheusMakeMergedMeta_get_ne (t : List (String × Record)) (m : Metric) (k : String)
    (hk : k ≠ (prometheusMakeMergedMeta t m).1) :
    mapGet (prometheusMakeMergedMeta t m).2 k = mapGet t k := by
  rw [prometheusMakeMergedMeta_fst] at hk
  simp only [prometheusMakeMergedMeta]
  cases h : mapGet t (mergedMetaLoop m.Label ("", [])).1 with
  | none => simp [mapGet_mapSet_ne _ _ _ _ hk]
  | some r => simp

theorem mapGet_setSampleField_self (t : List (String × Record)) (k f v : String) (r : Record)
    (h : mapGet t k = some r) : mapGet (setSampleField t k f v) k = some (mapSet r f v) := by
  simp [setSampleField, h, mapGet_mapSet_self]

theorem mapGet_setSampleField_ne (t : List (String × Record)) (k f v k' : String)
    (h : k' ≠ k) : mapGet (setSampleField t k f v) k' = mapGet t k' := by
  unfold setSampleField
  cases mapGet t k with
  | none => rfl
  | some r => simp [mapGet_mapSet_ne _ _ _ _ h]

theorem newFamilyLoop_of_excluded (fmt : Fmt) (mf : MetricFamily) (api : API) (ms : List Metric)
    (st : Stores) (h : excluded mf api = true) : newFamilyLoop fmt mf api ms st = st := by
  cases ms with
  | nil => rfl
  | cons m rest => simp [newFamilyLoop, h]

theorem newFamilyLoop_of_not_excluded (fmt : Fmt) (mf : MetricFamily) (api : API)
    (ms : List Metric) (st : Stores) (h : excluded mf api = false) :
    newFamilyLoop fmt mf api ms st = ms.foldl (fun s m => sampleStep fmt mf api m s) st := by
  induction ms generalizing st with
  | nil => rfl
  | cons m rest ih => simp [newFamilyLoop, h, ih]

/-- C2. When `GoMetrics` is off and the family name contains `go_`,
`prometheusNewFamily` returns the data store, the merge-key table and the
flattened sample exactly as it received them, whatever the type, the samples
and the labels of the family. -/
theorem go_family_leaves_stores_unchanged (fmt : Fmt) (mf : MetricFamily) (api : API)
    (st : Stores) (hname : stringsContains mf.Name "go_" = true)
    (hflag : api.Prometheus.GoMetrics = false) :
    prometheusNewFamily fmt mf api st = st :=
  newFamilyLoop_of_excluded fmt mf api mf.Metric st (by simp [excluded, hname, hflag])

/-- Witness of C2: a counter family named `go_goroutines` with a labelled
sample, processed with every flag off. -/
theorem go_family_leaves_stores_unchanged_witness :
    stringsContains "go_goroutines" "go_" = true
      ∧ (plainApi []).Prometheus.GoMetrics = false
      ∧ prometheusNewFamily integralFmt
          { Name := "go_goroutines", Help := "", Typ := MetricType.COUNTER,
            Metric := [counterSample [⟨"method", "get"⟩] float5] }
          (plainApi []) (initialStores (plainApi [])) = initialStores (plainApi []) :=
  ⟨by decide, by decide,
    go_family_leaves_stores_unchanged integralFmt _ (plainApi []) _ (by decide) (by decide)⟩

theorem lastWrite_mem {kvs : List (String × String)} {k v : String}
    (h : lastWrite kvs k = some v) : (k, v) ∈ kvs := by
  induction kvs with
  | nil => simp [lastWrite] at h
  | cons kv rest ih =>
    cases hr : lastWrite rest k with
    | some w =>
      simp only [lastWrite, hr, Option.some.injEq] at h
      subst h
      exact List.mem_cons_of_mem _ (ih hr)
    | none =>
      by_cases hk : kv.1 = k
      · simp only [lastWrite, hr, hk, if_true, Option.some.injEq] at h
        have : kv = (k, v) := Prod.ext hk h
        simp [this]
      · simp [lastWrite, hr, hk] at h

theorem lastWrite_isSome {kvs : List (String × String)} {k : String}
    (h : k ∈ kvs.map Prod.fst) : ∃ v, lastWrite kvs k = some v := by
  induction kvs with
  | nil => simp at h
  | cons kv rest ih =>
    cases hr : lastWrite rest k with
    | some w => exact ⟨w, by simp [lastWrite, hr]⟩
    | none =>
      simp only [List.map_cons, List.mem_cons] at h
      rcases h with h | h
      · subst h
        exact ⟨kv.2, by simp [lastWrite, hr]⟩
      · obtain ⟨v, hv⟩ := ih h
        rw [hr] at hv
        cases hv

theorem string_append_left_cancel {a b c : String} (h : a ++ b = a ++ c) : b = c := by
  have h1 := congrArg String.data h
  simp only [String.data_append] at h1
  exact String.ext (List.append_cancel_left h1)

/-- C4. `prometheusMakeMergedMeta` returns the concatenation of the label
values of the sample, in label order.  Afterwards the table binds that key.  If
the key was bound before, the table is unchanged.  If it was not, the table is
the old one followed by one new binding of the key to a record that holds the
label pairs of the sample and nothing else: every field of it is a label pair,
every label name is a field, and it maps each label name to the value of the
last label of that name, which is the value of the label when names are
distinct. -/
theorem prometheusMakeMergedMeta_spec (t : List (String × Record)) (m : Metric) :
    (prometheusMakeMergedMeta t m).1 = String.join (m.Label.map LabelPair.Value)
    ∧ (∃ r, mapGet (prometheusMakeMergedMeta t m).2 (prometheusMakeMergedMeta t m).1 = some r)
    ∧ (∀ r0, mapGet t (prometheusMakeMergedMeta t m).1 = some r0 →
        (prometheusMakeMergedMeta t m).2 = t)
    ∧ (mapGet t (prometheusMakeMergedMeta t m).1 = none →
        ∃ r, (prometheusMakeMergedMeta t m).2 = t ++ [((prometheusMakeMergedMeta t m).1, r)]
          ∧ (∀ n, mapGet r n = lastLabelValue m n)
          ∧ (∀ n v, mapGet r n = some v → (⟨n, v⟩ : LabelPair) ∈ m.Label)
          ∧ (∀ l ∈ m.Label, ∃ v, mapGet r l.Name = some v)
          ∧ ((m.Label.map LabelPair.Name).Nodup →
              ∀ l ∈ m.Label, mapGet r l.Name = some l.Value)) := by
  refine ⟨?_, ⟨_, prometheusMakeMergedMeta_get_self t m⟩, ?_, ?_⟩
  · rw [prometheusMakeMergedMeta_fst, mergedMetaLoop_key_eq_join]
  · intro r0 h
    rw [prometheusMakeMergedMeta_fst] at h
    simp [prometheusMakeMergedMeta, h]
  · intro h
    rw [prometheusMakeMergedMeta_fst] at h ⊢
    refine ⟨(mergedMetaLoop m.Label ("", [])).2, ?_, mapGet_labelRecord m, ?_, ?_, ?_⟩
    · simp only [prometheusMakeMergedMeta, h]
      exact mapSet_of_mapGet_none _ _ _ h
    · intro n v hv
      rw [mapGet_labelRecord, lastLabelValue] at hv
      have := lastWrite_mem hv
      simp only [List.mem_map] at this
      obtain ⟨l, hl, heq⟩ := this
      cases l
      simp only [Prod.mk.injEq] at heq
      obtain ⟨h1, h2⟩ := heq
      subst h1 h2
      exact hl
    · intro l hl
      rw [mapGet_labelRecord, lastLabelValue]
      apply lastWrite_isSome
      simp only [List.map_map, List.mem_map]
      exact ⟨l, hl, rfl⟩
    · intro hn l hl
      rw [mapGet_labelRecord, lastLabelValue]
      have hn' : ((m.Label.map (fun l => (l.Name, l.Value))).map Prod.fst).Nodup := by
        simpa [List.map_map, Function.comp_def] using hn
      exact lastWrite_of_nodup hn' (l.Name, l.Value) (List.mem_map.2 ⟨l, hl, rfl⟩)

theorem sampleStep_value_merge (fmt : Fmt) (mf : MetricFamily) (api : API) (m : Metric)
    (st : Stores) (hs : mf.Typ ≠ MetricType.SUMMARY) (hh : mf.Typ ≠ MetricType.HISTOGRAM)
    (hlab : 0 < m.Label.length) (hun : api.Prometheus.Unflatten = false) :
    sampleStep fmt mf api m st
      = { st with
          sampleKeys :=
            setSampleField (prometheusMakeMergedMeta st.sampleKeys m).2
              (prometheusMakeMergedMeta st.sampleKeys m).1 (valueKey mf)
              (fmt.sprintFloat (getValue m)) } := by
  simp [sampleStep, hs, hh, hlab, hun]

theorem sampleStep_summary_merge (fmt : Fmt) (mf : MetricFamily) (api : API) (m : Metric)
    (st : Stores) (hs : mf.Typ = MetricType.SUMMARY)
    (hlab : 0 < m.Label.length) (hun : api.Prometheus.Unflatten = false)
    (hsum : api.Prometheus.Summary = false) :
    sampleStep fmt mf api m st = mergeCountSum fmt mf m ".summary" st := by
  simp [sampleStep, hs, hlab, hun, hsum]

theorem sampleStep_histogram_merge (fmt : Fmt) (mf : MetricFamily) (api : API) (m : Metric)
    (st : Stores) (hs : mf.Typ = MetricType.HISTOGRAM)
    (hlab : 0 < m.Label.length) (hun : api.Prometheus.Unflatten = false)
    (hsum : api.Prometheus.Histogram = false) :
    sampleStep fmt mf api m st = mergeCountSum fmt mf m ".histogram" st := by
  simp [sampleStep, hs, hlab, hun, hsum]

/-- The record bound to the merge key after `mergeCountSum`. -/
theorem mergeCountSum_get_self (fmt : Fmt) (mf : MetricFamily) (m : Metric) (kind : String)
    (st : Stores) :
    mapGet (mergeCountSum fmt mf m kind st).sampleKeys (prometheusMakeMergedMeta st.sampleKeys m).1
      = some (mapSet (mapSet (mergeRecord st.sampleKeys m) (mf.Name ++ kind ++ ".count")
          (sprintUint m.summarySampleCount)) (mf.Name ++ kind ++ ".sum")
          (fmt.sprintFloat m.summarySampleSum)) := by
  simp only [mergeCountSum]
  rw [mapGet_setSampleField_self _ _ _ _ _
    (mapGet_setSampleField_self _ _ _ _ _ (prometheusMakeMergedMeta_get_self _ _))]

theorem mergeCountSum_get_ne (fmt : Fmt) (mf : MetricFamily) (m : Metric) (kind : String)
    (st : Stores) (k : String) (hk : k ≠ (prometheusMakeMergedMeta st.sampleKeys m).1) :
    mapGet (mergeCountSum fmt mf m kind st).sampleKeys k = mapGet st.sampleKeys k := by
  simp only [mergeCountSum]
  rw [mapGet_setSampleField_ne _ _ _ _ _ hk, mapGet_setSampleField_ne _ _ _ _ _ hk,
    prometheusMakeMergedMeta_get_ne _ _ _ hk]

theorem count_ne_sum (a : String) : a ++ ".count" ≠ a ++ ".sum" := by
  intro h
  have := string_append_left_cancel h
  revert this
  decide

/-- C5. A labelled sample of a gauge or counter family, processed with
`Unflatten` off: the record under its merge key has the field
`<name>.gauge` (gauge) or `<name>.counter` (counter) equal to the rendered
value; if the key was bound before, every other field of its record is as it
was; the records under the other merge keys, the data store and the flattened
sample are unchanged.  On the family `http_requests_total` of the example the
table ends up with the two records `{method=get, http_requests_total.counter=5}`
and `{method=post, http_requests_total.counter=2}`. -/
theorem gauge_counter_merge (fmt : Fmt) (mf : MetricFamily) (api : API) (m : Metric)
    (st : Stores) (htyp : mf.Typ = MetricType.GAUGE ∨ mf.Typ = MetricType.COUNTER)
    (hlab : 0 < m.Label.length) (hun : api.Prometheus.Unflatten = false) :
    (∃ r, mapGet (sampleStep fmt mf api m st).sampleKeys (prometheusMakeMergedMeta st.sampleKeys m).1
          = some r
        ∧ mapGet r (mf.Name ++ if mf.Typ = MetricType.GAUGE then ".gauge" else ".counter")
          = some (fmt.sprintFloat (getValue m))
        ∧ ∀ r0, mapGet st.sampleKeys (prometheusMakeMergedMeta st.sampleKeys m).1 = some r0 →
            ∀ f, f ≠ (mf.Name ++ if mf.Typ = MetricType.GAUGE then ".gauge" else ".counter") →
              mapGet r f = mapGet r0 f)
    ∧ (∀ k, k ≠ (prometheusMakeMergedMeta st.sampleKeys m).1 →
        mapGet (sampleStep fmt mf api m st).sampleKeys k = mapGet st.sampleKeys k)
    ∧ (sampleStep fmt mf api m st).dataStore = st.dataStore
    ∧ (sampleStep fmt mf api m st).flattenedSample = st.flattenedSample
    ∧ (prometheusNewFamily fmt httpRequestsTotal (plainApi []) (initialStores (plainApi []))).sampleKeys
        = [("get", [("method", "get"), ("http_requests_total.counter", fmt.sprintFloat float5)]),
           ("post", [("method", "post"), ("http_requests_total.counter", fmt.sprintFloat float2)])] := by
  have hs : mf.Typ ≠ MetricType.SUMMARY := by rcases htyp with h | h <;> simp [h]
  have hh : mf.Typ ≠ MetricType.HISTOGRAM := by rcases htyp with h | h <;> simp [h]
  have hkey : valueKey mf = mf.Name ++ if mf.Typ = MetricType.GAUGE then ".gauge" else ".counter" := by
    rcases htyp with h | h <;> simp [valueKey, h]
  rw [sampleStep_value_merge fmt mf api m st hs hh hlab hun, ← hkey]
  refine ⟨⟨_, mapGet_setSampleField_self _ _ _ _ _ (prometheusMakeMergedMeta_get_self _ _),
    mapGet_mapSet_self _ _ _, ?_⟩, ?_, rfl, rfl, ?_⟩
  · intro r0 h0 f hf
    rw [mapGet_mapSet_ne _ _ _ _ hf]
    rw [prometheusMakeMergedMeta_fst] at h0
    simp [mergeRecord, h0]
  · intro k hk
    simp only []
    rw [mapGet_setSampleField_ne _ _ _ _ _ hk, prometheusMakeMergedMeta_get_ne _ _ _ hk]
  · rfl

/-- Witness of C5: the first sample of `http_requests_total`, on the initial
stores. -/
theorem gauge_counter_merge_witness :
    (mapGet (sampleStep integralFmt httpRequestsTotal (plainApi [])
        (counterSample [⟨"method", "get"⟩] float5) (initialStores (plainApi []))).sampleKeys "get"
      = some [("method", "get"), ("http_requests_total.counter", "5")])
    ∧ (prometheusNewFamily integralFmt httpRequestsTotal (plainApi [])
        (initialStores (plainApi []))).sampleKeys
        = [("get", [("method", "get"), ("http_requests_total.counter", "5")]),
           ("post", [("method", "post"), ("http_requests_total.counter", "2")])] :=
  ⟨by decide,
    (gauge_counter_merge integralFmt httpRequestsTotal (plainApi [])
      (counterSample [⟨"method", "get"⟩] float5) (initialStores (plainApi []))
      (Or.inr rfl) (by decide) rfl).2.2.2.2⟩

/-- C8. A labelled sample of a summary family, processed with `Unflatten` and
`Summary` off: the record under its merge key has `<name>.summary.count` and
`<name>.summary.sum` equal to the rendered sample count and sample sum of the
summary; on every other field that record agrees with the record the key was
bound to before or, if the key is new, with the labels of the sample, so no
quantile field is written; the records under the other merge keys are
unchanged and nothing is appended to the data store. -/
theorem summary_merge (fmt : Fmt) (mf : MetricFamily) (api : API) (m : Metric) (st : Stores)
    (htyp : mf.Typ = MetricType.SUMMARY) (hlab : 0 < m.Label.length)
    (hun : api.Prometheus.Unflatten = false) (hsum : api.Prometheus.Summary = false) :
    (∃ r, mapGet (sampleStep fmt mf api m st).sampleKeys (prometheusMakeMergedMeta st.sampleKeys m).1
          = some r
        ∧ mapGet r (mf.Name ++ ".summary" ++ ".count") = some (sprintUint m.summarySampleCount)
        ∧ mapGet r (mf.Name ++ ".summary" ++ ".sum") = some (fmt.sprintFloat m.summarySampleSum)
        ∧ ∀ f, f ≠ mf.Name ++ ".summary" ++ ".count" → f ≠ mf.Name ++ ".summary" ++ ".sum" →
            mapGet r f
              = match mapGet st.sampleKeys (prometheusMakeMergedMeta st.sampleKeys m).1 with
                | some r0 => mapGet r0 f
                | none => lastLabelValue m f)
    ∧ (∀ k, k ≠ (prometheusMakeMergedMeta st.sampleKeys m).1 →
        mapGet (sampleStep fmt mf api m st).sampleKeys k = mapGet st.sampleKeys k)
    ∧ (sampleStep fmt mf api m st).dataStore = st.dataStore
    ∧ (sampleStep fmt mf api m st).flattenedSample = st.flattenedSample := by
  rw [sampleStep_summary_merge fmt mf api m st htyp hlab hun hsum]
  refine ⟨⟨_, mergeCountSum_get_self fmt mf m ".summary" st, ?_, mapGet_mapSet_self _ _ _, ?_⟩,
    fun k hk => mergeCountSum_get_ne fmt mf m ".summary" st k hk, rfl, rfl⟩
  · rw [mapGet_mapSet_ne _ _ _ _ (count_ne_sum _), mapGet_mapSet_self]
  · intro f hc hs
    rw [mapGet_mapSet_ne _ _ _ _ hs, mapGet_mapSet_ne _ _ _ _ hc, prometheusMakeMergedMeta_fst]
    simp only [mergeRecord]
    cases h : mapGet st.sampleKeys (mergedMetaLoop m.Label ("", [])).1 with
    | some r0 => rfl
    | none => exact mapGet_labelRecord m f

/-- Witness of C8: a summary sample `{method="get"}` with count 5, sum 2 and one
quantile, on the initial stores. -/
theorem summary_merge_witness :
    (sampleStep integralFmt
        { Name := "latency", Help := "", Typ := MetricType.SUMMARY, Metric := [] } (plainApi [])
        (summarySample [⟨"method", "get"⟩] ⟨5, float2, [⟨float2, float5⟩]⟩)
        (initialStores (plainApi [])))
      = { dataStore := [], flattenedSample := [("event_type", "appSample")],
          sampleKeys :=
            [("get", [("method", "get"), ("latency.summary.count", "5"),
              ("latency.summary.sum", "2")])] }
    ∧ ∃ r, mapGet (sampleStep integralFmt
        { Name := "latency", Help := "", Typ := MetricType.SUMMARY, Metric := [] } (plainApi [])
        (summarySample [⟨"method", "get"⟩] ⟨5, float2, [⟨float2, float5⟩]⟩)
        (initialStores (plainApi []))).sampleKeys "get" = some r
      ∧ mapGet r "latency.summary.count" = some "5" :=
  ⟨by decide,
    (summary_merge integralFmt
      { Name := "latency", Help := "", Typ := MetricType.SUMMARY, Metric := [] } (plainApi [])
      (summarySample [⟨"method", "get"⟩] ⟨5, float2, [⟨float2, float5⟩]⟩)
      (initialStores (plainApi [])) rfl (by decide) rfl rfl).1.imp (fun _ h => ⟨h.1, h.2.1⟩)⟩

/-- C6, evaluated. A histogram sample `{method="get"}` with sample count 5 and
sample sum 2, merged with `Unflatten` and `Histogram` off: the merge record
receives `h.histogram.count = 0` and `h.histogram.sum = 0`, read through
`GetSummary`, not the count 5 and the sum 2 of the histogram. -/
theorem histogram_merge_reads_summary :
    (sampleStep integralFmt
        { Name := "h", Help := "", Typ := MetricType.HISTOGRAM, Metric := [] } (plainApi [])
        (histogramSample [⟨"method", "get"⟩] ⟨5, float2, []⟩)
        (initialStores (plainApi []))).sampleKeys
      = [("get", [("method", "get"), ("h.histogram.count", "0"), ("h.histogram.sum", "0")])]
    ∧ sprintUint (histogramSample [⟨"method", "get"⟩] ⟨5, float2, []⟩).histogramSampleCount = "5"
    ∧ integralFmt.sprintFloat
        (histogramSample [⟨"method", "get"⟩] ⟨5, float2, []⟩).histogramSampleSum = "2" := by
  decide

/-- C7, evaluated. A histogram sample with sample count 5 and sample sum 2,
processed with `Unflatten` set: the appended record has `count = 5`, the count
of the histogram, and `sum = 0`, read through `GetSummary`, not the sum 2 of
the histogram; the roll-up record (`Histogram` set) has the same `sum = 0`. -/
theorem histogram_record_sum_reads_summary :
    (sampleStep integralFmt
        { Name := "h", Help := "", Typ := MetricType.HISTOGRAM, Metric := [] } (unflattenApi [])
        (histogramSample [] ⟨5, float2, []⟩) (initialStores (unflattenApi []))).dataStore
      = [[("name", "h"), ("help", ""), ("type", "HISTOGRAM"), ("count", "5"), ("sum", "0")]]
    ∧ (sampleStep integralFmt
        { Name := "h", Help := "", Typ := MetricType.HISTOGRAM, Metric := [] }
        { plainApi [] with Prometheus := { (plainApi []).Prometheus with Histogram := true } }
        (histogramSample [] ⟨5, float2, []⟩) (initialStores (plainApi []))).dataStore
      = [[("name", "h"), ("help", ""), ("type", "HISTOGRAM"), ("count", "5"), ("sum", "0"),
          ("event_type", "appHistogramSample")]]
    ∧ integralFmt.sprintFloat (histogramSample [] ⟨5, float2, []⟩).histogramSampleSum = "2" := by
  decide

theorem sampleStep_unflatten (fmt : Fmt) (mf : MetricFamily) (api : API) (m : Metric)
    (st : Stores) (hun : api.Prometheus.Unflatten = true) :
    sampleStep fmt mf api m st
      = { st with dataStore := st.dataStore ++ [expandedRecord fmt mf api m] } := by
  by_cases hs : mf.Typ = MetricType.SUMMARY
  · simp [sampleStep, expandedRecord, hs, hun]
  · by_cases hh : mf.Typ = MetricType.HISTOGRAM
    · simp [sampleStep, expandedRecord, hh, hun]
    · simp [sampleStep, expandedRecord, hs, hh, hun]

theorem sampleStep_rollup (fmt : Fmt) (mf : MetricFamily) (api : API) (m : Metric)
    (st : Stores) (hun : api.Prometheus.Unflatten = false)
    (hmode : (mf.Typ = MetricType.SUMMARY ∧ api.Prometheus.Summary = true)
      ∨ (mf.Typ = MetricType.HISTOGRAM ∧ api.Prometheus.Histogram = true)) :
    sampleStep fmt mf api m st
      = { st with dataStore := st.dataStore ++ [rollupRecord fmt mf api m] } := by
  rcases hmode with ⟨ht, hf⟩ | ⟨ht, hf⟩
  · simp [sampleStep, rollupRecord, ht, hf, hun]
  · simp [sampleStep, rollupRecord, ht, hf, hun]

theorem foldl_append_records (step : Metric → Stores → Stores) (f : Metric → Record)
    (h : ∀ m st, step m st = { st with dataStore := st.dataStore ++ [f m] })
    (ms : List Metric) (st : Stores) :
    ms.foldl (fun s m => step m s) st = { st with dataStore := st.dataStore ++ ms.map f } := by
  induction ms generalizing st with
  | nil => simp
  | cons m rest ih =>
    rw [List.foldl_cons, ih, h]
    simp

theorem prometheusNewFamily_unflatten (fmt : Fmt) (mf : MetricFamily) (api : API) (st : Stores)
    (hun : api.Prometheus.Unflatten = true) :
    prometheusNewFamily fmt mf api st
      = { st with
          dataStore := st.dataStore
            ++ if excluded mf api then [] else mf.Metric.map (expandedRecord fmt mf api) } := by
  unfold prometheusNewFamily
  cases hex : excluded mf api with
  | true => simp [newFamilyLoop_of_excluded fmt mf api _ st hex]
  | false =>
    rw [newFamilyLoop_of_not_excluded fmt mf api _ st hex]
    simpa using foldl_append_records (sampleStep fmt mf api) (expandedRecord fmt mf api)
      (fun m s => sampleStep_unflatten fmt mf api m s hun) mf.Metric st

theorem foldl_families_unflatten (fmt : Fmt) (api : API) (hun : api.Prometheus.Unflatten = true)
    (fams : List MetricFamily) (st : Stores) :
    fams.foldl (fun st mf => prometheusNewFamily fmt mf api st) st
      = { st with
          dataStore := st.dataStore
            ++ (fams.filter (fun mf => !excluded mf api)).flatMap
                (fun mf => mf.Metric.map (expandedRecord fmt mf api)) } := by
  induction fams generalizing st with
  | nil => simp
  | cons mf rest ih =>
    rw [List.foldl_cons, ih, prometheusNewFamily_unflatten fmt mf api st hun]
    cases hex : excluded mf api <;> simp [List.filter_cons, hex]

/-- C9. With `Unflatten` set, `Prometheus` appends to the data store the
records of the samples of the families that are not excluded, one record per
sample, in family order and sample order, and nothing else: no merge-key record
and no flattened sample.  The number of appended records is the total number of
samples of those families. -/
theorem unflatten_one_record_per_sample (fmt : Fmt) (families : List MetricFamily)
    (dataStore : List Record) (api : API) (hun : api.Prometheus.Unflatten = true) :
    Prometheus fmt families dataStore api
        = dataStore ++ (families.filter (fun mf => !excluded mf api)).flatMap
            (fun mf => mf.Metric.map (expandedRecord fmt mf api))
    ∧ (Prometheus fmt families dataStore api).length
        = dataStore.length
          + ((families.filter (fun mf => !excluded mf api)).map (fun mf => mf.Metric.length)).sum
    ∧ (consumeFamilies fmt api families dataStore).sampleKeys = [] := by
  have hst := foldl_families_unflatten fmt api hun families
    { dataStore := dataStore, flattenedSample := initialFlattened api, sampleKeys := [] }
  have hP : Prometheus fmt families dataStore api
      = dataStore ++ (families.filter (fun mf => !excluded mf api)).flatMap
          (fun mf => mf.Metric.map (expandedRecord fmt mf api)) := by
    simp only [Prometheus, consumeFamilies, hst, hun]
    simp
  refine ⟨hP, ?_, ?_⟩
  · rw [hP]
    simp [List.flatMap, List.length_flatten, List.map_map, Function.comp_def]
  · simp only [consumeFamilies, hst]

/-- Witness of C9: `http_requests_total` and an excluded family `go_threads`,
processed with `Unflatten` set on a data store holding one record. -/
theorem unflatten_one_record_per_sample_witness :
    (unflattenApi []).Prometheus.Unflatten = true
    ∧ Prometheus integralFmt
        [{ Name := "go_threads", Help := "", Typ := MetricType.GAUGE,
           Metric := [gaugeSample [] float5] }, httpRequestsTotal]
        [[("old", "record")]] (unflattenApi [])
      = [[("old", "record")],
         [("name", "http_requests_total"), ("help", "requests"), ("type", "COUNTER"),
          ("method", "get"), ("value", "5")],
         [("name", "http_requests_total"), ("help", "requests"), ("type", "COUNTER"),
          ("method", "post"), ("value", "2")]] :=
  ⟨rfl,
    (unflatten_one_record_per_sample integralFmt
      [{ Name := "go_threads", Help := "", Typ := MetricType.GAUGE,
         Metric := [gaugeSample [] float5] }, httpRequestsTotal]
      [[("old", "record")]] (unflattenApi []) rfl).1.trans (by decide)⟩

/-- C10. A summary family processed with `Summary` set, or a histogram family
processed with `Histogram` set, `Unflatten` being off and the family not
excluded: `prometheusNewFamily` appends the roll-up record of every sample to
the data store, one per sample in sample order, labelled or not, and leaves the
merge-key table and the flattened sample as they were. -/
theorem rollup_one_record_per_sample (fmt : Fmt) (mf : MetricFamily) (api : API) (st : Stores)
    (hex : excluded mf api = false) (hun : api.Prometheus.Unflatten = false)
    (hmode : (mf.Typ = MetricType.SUMMARY ∧ api.Prometheus.Summary = true)
      ∨ (mf.Typ = MetricType.HISTOGRAM ∧ api.Prometheus.Histogram = true)) :
    prometheusNewFamily fmt mf api st
      = { dataStore := st.dataStore ++ mf.Metric.map (rollupRecord fmt mf api),
          flattenedSample := st.flattenedSample,
          sampleKeys := st.sampleKeys } := by
  unfold prometheusNewFamily
  rw [newFamilyLoop_of_not_excluded fmt mf api _ st hex]
  exact foldl_append_records (sampleStep fmt mf api) (rollupRecord fmt mf api)
    (fun m s => sampleStep_rollup fmt mf api m s hun hmode) mf.Metric st

/-- Witness of C10: a summary family with a labelled and a label-less sample,
processed with `Summary` set. -/
theorem rollup_one_record_per_sample_witness :
    prometheusNewFamily integralFmt
        { Name := "latency", Help := "", Typ := MetricType.SUMMARY,
          Metric := [summarySample [⟨"method", "get"⟩] ⟨5, float2, []⟩,
            summarySample [] ⟨2, float5, [⟨float2, float5⟩]⟩] }
        { plainApi [] with Prometheus := { (plainApi []).Prometheus with Summary := true } }
        (initialStores (plainApi []))
      = { dataStore :=
            [[("name", "latency"), ("help", ""), ("type", "SUMMARY"), ("method", "get"),
              ("count", "5"), ("sum", "2"), ("event_type", "appSummarySample")],
             [("name", "latency"), ("help", ""), ("type", "SUMMARY"),
              ("count", "2"), ("sum", "5"), ("event_type", "appSummarySample"),
              ("2.000000", "5")]],
          flattenedSample := [("event_type", "appSample")],
          sampleKeys := [] } :=
  (rollup_one_record_per_sample integralFmt
    { Name := "latency", Help := "", Typ := MetricType.SUMMARY,
      Metric := [summarySample [⟨"method", "get"⟩] ⟨5, float2, []⟩,
        summarySample [] ⟨2, float5, [⟨float2, float5⟩]⟩] }
    { plainApi [] with Prometheus := { (plainApi []).Prometheus with Summary := true } }
    (initialStores (plainApi [])) (by decide) rfl (Or.inl ⟨rfl, rfl⟩)).trans (by decide)

theorem mapGet_prometheusMakeQuantiles (fmt : Fmt) (m : Metric) (r : Record) (mf : MetricFamily)
    (k : String) (hk : k ∉ lateKeys fmt m) :
    mapGet (prometheusMakeQuantiles fmt m r mf true) k = mapGet r k := by
  unfold prometheusMakeQuantiles
  apply mapGet_foldl_of_forall
  intro r q hq
  have hne : k ≠ fmt.sprintfF q.Quantile := by
    intro h
    apply hk
    simp only [lateKeys, List.mem_append, List.mem_map]
    exact Or.inl (Or.inr ⟨q, hq, h.symm⟩)
  by_cases hnan : q.Value.isNaN = true
  · simp [hnan]
  · simp [hnan, mapGet_mapSet_ne _ _ _ _ hne]

theorem mapGet_prometheusMakeBuckets (fmt : Fmt) (m : Metric) (r : Record) (mf : MetricFamily)
    (k : String) (hk : k ∉ lateKeys fmt m) :
    mapGet (prometheusMakeBuckets fmt m r mf true) k = mapGet r k := by
  unfold prometheusMakeBuckets
  apply mapGet_foldl_of_forall
  intro r b hb
  have hne : k ≠ fmt.sprintfF b.UpperBound := by
    intro h
    apply hk
    simp only [lateKeys, List.mem_append, List.mem_map]
    exact Or.inr ⟨b, hb, h.symm⟩
  simp [mapGet_mapSet_ne _ _ _ _ hne]

theorem lateKeys_fixed (fmt : Fmt) (m : Metric) (k : String) (hk : k ∉ lateKeys fmt m) :
    k ≠ "value" ∧ k ≠ "count" ∧ k ≠ "sum" ∧ k ≠ "event_type" := by
  simp only [lateKeys, List.mem_append, List.mem_cons, List.mem_singleton, not_or] at hk
  obtain ⟨⟨⟨h1, h2, h3, h4, -⟩, -⟩, -⟩ := hk
  exact ⟨h1, h2, h3, h4⟩

/-- A per-sample record agrees with the record of line 74 outside the keys
written after the labels. -/
theorem mapGet_perSampleRecord (fmt : Fmt) (mf : MetricFamily) (api : API) (m : Metric)
    (r : Record) (hr : perSampleRecord? fmt mf api m = some r) (k : String)
    (hk : k ∉ lateKeys fmt m) : mapGet r k = mapGet (newMetric mf api m) k := by
  obtain ⟨h1, h2, h3, h4⟩ := lateKeys_fixed fmt m k hk
  unfold perSampleRecord? at hr
  by_cases hun : api.Prometheus.Unflatten = true
  · simp only [hun, if_true, Option.some.injEq] at hr
    subst hr
    unfold expandedRecord
    by_cases hs : mf.Typ = MetricType.SUMMARY
    · simp only [hs, if_true, summaryExpanded, hun]
      rw [mapGet_prometheusMakeQuantiles fmt m _ mf k hk, mapGet_mapSet_ne _ _ _ _ h3,
        mapGet_mapSet_ne _ _ _ _ h2]
    · by_cases hh : mf.Typ = MetricType.HISTOGRAM
      · simp only [hh, if_true, histogramExpanded, hun]
        rw [if_neg (by decide), mapGet_prometheusMakeBuckets fmt m _ mf k hk,
          mapGet_mapSet_ne _ _ _ _ h3, mapGet_mapSet_ne _ _ _ _ h2]
      · simp only [hs, hh, if_false]
        rw [mapGet_mapSet_ne _ _ _ _ h1]
  · simp only [hun] at hr
    have hroll : r = rollupRecord fmt mf api m := by
      split_ifs at hr <;> simp_all
    subst hroll
    unfold rollupRecord
    by_cases hs : mf.Typ = MetricType.SUMMARY
    · simp only [hs, if_true, summaryRollup]
      rw [mapGet_prometheusMakeQuantiles fmt m _ mf k hk, mapGet_mapSet_ne _ _ _ _ h4,
        mapGet_mapSet_ne _ _ _ _ h3, mapGet_mapSet_ne _ _ _ _ h2]
    · simp only [hs, if_false, histogramRollup]
      rw [mapGet_prometheusMakeBuckets fmt m _ mf k hk, mapGet_mapSet_ne _ _ _ _ h4,
        mapGet_mapSet_ne _ _ _ _ h3, mapGet_mapSet_ne _ _ _ _ h2]

/-- The record of line 74 on a key: the last label of that name, else the last
static attribute of that name, else the field among `name`, `help`, `type`. -/
theorem mapGet_newMetric (mf : MetricFamily) (api : API) (m : Metric) (k : String) :
    mapGet (newMetric mf api m) k
      = match lastLabelValue m k with
        | some v => some v
        | none =>
          match lastWrite api.Prometheus.CustomAttributes k with
          | some v => some v
          | none =>
            mapGet (mapSet (mapSet (mapSet [] "name" mf.Name) "help" mf.Help) "type"
              mf.Typ.String) k := by
  unfold newMetric
  rw [prometheusMakeLabels_eq, mapGet_writeAll, applyCustomAttributes_eq, mapGet_writeAll]
  rfl

theorem sampleStep_dataStore (fmt : Fmt) (mf : MetricFamily) (api : API) (m : Metric)
    (st : Stores) :
    (sampleStep fmt mf api m st).dataStore
      = st.dataStore ++ (perSampleRecord? fmt mf api m).toList := by
  by_cases hun : api.Prometheus.Unflatten = true
  · rw [sampleStep_unflatten fmt mf api m st hun]
    simp [perSampleRecord?, hun]
  · simp only [Bool.not_eq_true] at hun
    by_cases hs : mf.Typ = MetricType.SUMMARY
    · by_cases hf : api.Prometheus.Summary = true
      · rw [sampleStep_rollup fmt mf api m st hun (Or.inl ⟨hs, hf⟩)]
        simp [perSampleRecord?, hun, hs, hf]
      · simp only [Bool.not_eq_true] at hf
        simp [sampleStep, perSampleRecord?, hun, hs, hf, mergeCountSum]
        split_ifs <;> rfl
    · by_cases hh : mf.Typ = MetricType.HISTOGRAM
      · by_cases hf : api.Prometheus.Histogram = true
        · rw [sampleStep_rollup fmt mf api m st hun (Or.inr ⟨hh, hf⟩)]
          simp [perSampleRecord?, hun, hh, hf]
        · simp only [Bool.not_eq_true] at hf
          simp [sampleStep, perSampleRecord?, hun, hh, hf, mergeCountSum]
          split_ifs <;> rfl
      · simp [sampleStep, perSampleRecord?, hun, hs, hh]
        split_ifs <;> rfl

theorem mapSet_ne_nil {V : Type} (m : List (String × V)) (k : String) (v : V) :
    mapSet m k v ≠ [] := by
  cases m with
  | nil => simp [mapSet]
  | cons p t =>
    obtain ⟨k', v'⟩ := p
    by_cases h : k' = k <;> simp [mapSet, h]

theorem sampleStep_flattened_ne_nil (fmt : Fmt) (mf : MetricFamily) (api : API) (m : Metric)
    (st : Stores) (h : st.flattenedSample ≠ []) :
    (sampleStep fmt mf api m st).flattenedSample ≠ [] := by
  unfold sampleStep
  simp only [mergeCountSum]
  split_ifs <;> first | exact h | exact mapSet_ne_nil _ _ _

theorem newFamilyLoop_flattened_ne_nil (fmt : Fmt) (mf : MetricFamily) (api : API)
    (ms : List Metric) (st : Stores) (h : st.flattenedSample ≠ []) :
    (newFamilyLoop fmt mf api ms st).flattenedSample ≠ [] := by
  induction ms generalizing st with
  | nil => exact h
  | cons m rest ih =>
    unfold newFamilyLoop
    split_ifs
    · exact h
    · exact ih _ (sampleStep_flattened_ne_nil fmt mf api m st h)

theorem consumeFamilies_flattened_ne_nil (fmt : Fmt) (api : API) (families : List MetricFamily)
    (dataStore : List Record) :
    (consumeFamilies fmt api families dataStore).flattenedSample ≠ [] := by
  have key : ∀ (fams : List MetricFamily) (st : Stores), st.flattenedSample ≠ [] →
      (fams.foldl (fun st mf => prometheusNewFamily fmt mf api st) st).flattenedSample ≠ [] := by
    intro fams
    induction fams with
    | nil => exact fun st h => h
    | cons mf rest ih =>
      intro st h
      exact ih _ (newFamilyLoop_flattened_ne_nil fmt mf api mf.Metric st h)
  apply key
  simp only [initialFlattened]
  split_ifs <;> exact mapSet_ne_nil _ _ _

/-- C1, refuted as stated. With the static attribute `env=prod` and `Unflatten`
off, the merge-key records of `http_requests_total` carry no field `env`; with
the static attribute `method=static` and `Unflatten` set, the per-sample
records carry the label value under `method`, not `static`. -/
theorem static_attributes_not_on_every_record :
    ¬ (∀ r ∈ Prometheus integralFmt [httpRequestsTotal] [] (plainApi [("env", "prod")]),
        ∀ kv ∈ (plainApi [("env", "prod")]).Prometheus.CustomAttributes,
          mapGet r kv.1 = some kv.2)
    ∧ ¬ (∀ r ∈ Prometheus integralFmt [httpRequestsTotal] []
          (unflattenApi [("method", "static")]),
        ∀ kv ∈ (unflattenApi [("method", "static")]).Prometheus.CustomAttributes,
          mapGet r kv.1 = some kv.2) := by
  decide

/-- C1, amended. Static attributes have distinct names.  The record a sample
appends to the data store (fully expanded or roll-up) maps a static attribute
name to its configured value whenever that name is neither a label name of the
sample nor a key written after the labels (`value`, `count`, `sum`,
`event_type`, a quantile or bucket key).  With `Unflatten` off, `Prometheus`
ends the data store with the flattened sample, which maps every static
attribute name to its configured value whatever it held before. -/
theorem static_attributes_amended (fmt : Fmt) (api : API)
    (hnodup : (api.Prometheus.CustomAttributes.map Prod.fst).Nodup) :
    (∀ (mf : MetricFamily) (m : Metric) (st : Stores),
      (sampleStep fmt mf api m st).dataStore
          = st.dataStore ++ (perSampleRecord? fmt mf api m).toList
        ∧ ∀ r, perSampleRecord? fmt mf api m = some r →
            ∀ kv ∈ api.Prometheus.CustomAttributes,
              kv.1 ∉ m.Label.map LabelPair.Name → kv.1 ∉ lateKeys fmt m →
                mapGet r kv.1 = some kv.2)
    ∧ (∀ (families : List MetricFamily) (dataStore : List Record),
        api.Prometheus.Unflatten = false →
          ∃ flat, Prometheus fmt families dataStore api
              = (consumeFamilies fmt api families dataStore).dataStore
                ++ (consumeFamilies fmt api families dataStore).sampleKeys.map Prod.snd ++ [flat]
            ∧ ∀ kv ∈ api.Prometheus.CustomAttributes, mapGet flat kv.1 = some kv.2) := by
  refine ⟨fun mf m st => ⟨sampleStep_dataStore fmt mf api m st, ?_⟩, ?_⟩
  · intro r hr kv hkv hlab hlate
    rw [mapGet_perSampleRecord fmt mf api m r hr kv.1 hlate, mapGet_newMetric]
    have h1 : lastLabelValue m kv.1 = none := by
      apply lastWrite_eq_none
      simpa [List.map_map, Function.comp_def] using hlab
    rw [h1, lastWrite_of_nodup hnodup kv hkv]
  · intro families dataStore hun
    refine ⟨applyCustomAttributes (consumeFamilies fmt api families dataStore).flattenedSample
      api.Prometheus.CustomAttributes, ?_, ?_⟩
    · have hne := consumeFamilies_flattened_ne_nil fmt api families dataStore
      have hpos : 0 < (consumeFamilies fmt api families dataStore).flattenedSample.length :=
        List.length_pos.2 hne
      simp [Prometheus, hun, hpos]
    · intro kv hkv
      rw [applyCustomAttributes_eq, mapGet_writeAll, lastWrite_of_nodup hnodup kv hkv]

/-- Witness of C1, amended: the static attribute `env=prod` on a labelled
summary sample processed with `Unflatten` set. -/
theorem static_attributes_amended_witness :
    ((unflattenApi [("env", "prod")]).Prometheus.CustomAttributes.map Prod.fst).Nodup
    ∧ perSampleRecord? integralFmt
        { Name := "latency", Help := "", Typ := MetricType.SUMMARY, Metric := [] }
        (unflattenApi [("env", "prod")]) (summarySample [⟨"method", "get"⟩] ⟨5, float2, []⟩)
      = some [("name", "latency"), ("help", ""), ("type", "SUMMARY"), ("env", "prod"),
          ("method", "get"), ("count", "5"), ("sum", "2")]
    ∧ mapGet [("name", "latency"), ("help", ""), ("type", "SUMMARY"), ("env", "prod"),
          ("method", "get"), ("count", "5"), ("sum", "2")] "env" = some "prod" :=
  ⟨by decide, by decide,
    ((static_attributes_amended integralFmt (unflattenApi [("env", "prod")]) (by decide)).1
      { Name := "latency", Help := "", Typ := MetricType.SUMMARY, Metric := [] }
      (summarySample [⟨"method", "get"⟩] ⟨5, float2, []⟩)
      (initialStores (unflattenApi [("env", "prod")]))).2 _ (by decide) ("env", "prod")
      (by decide) (by decide) (by decide)⟩

theorem sampleStep_merge_get_self (fmt : Fmt) (mf : MetricFamily) (api : API) (m : Metric)
    (st : Stores) (hlab : 0 < m.Label.length) (hun : api.Prometheus.Unflatten = false)
    (hs : mf.Typ = MetricType.SUMMARY → api.Prometheus.Summary = false)
    (hh : mf.Typ = MetricType.HISTOGRAM → api.Prometheus.Histogram = false) :
    ∃ r, mapGet (sampleStep fmt mf api m st).sampleKeys (prometheusMakeMergedMeta st.sampleKeys m).1
        = some r
      ∧ ∀ n, n ∉ mergeFields mf → mapGet r n = mapGet (mergeRecord st.sampleKeys m) n := by
  by_cases h1 : mf.Typ = MetricType.SUMMARY
  · rw [sampleStep_summary_merge fmt mf api m st h1 hlab hun (hs h1)]
    refine ⟨_, mergeCountSum_get_self fmt mf m ".summary" st, ?_⟩
    intro n hn
    simp only [mergeFields, h1, if_true, List.mem_cons, List.mem_singleton, not_or,
      List.not_mem_nil, not_false_eq_true, and_true] at hn
    rw [mapGet_mapSet_ne _ _ _ _ hn.2, mapGet_mapSet_ne _ _ _ _ hn.1]
  · by_cases h2 : mf.Typ = MetricType.HISTOGRAM
    · rw [sampleStep_histogram_merge fmt mf api m st h2 hlab hun (hh h2)]
      refine ⟨_, mergeCountSum_get_self fmt mf m ".histogram" st, ?_⟩
      intro n hn
      simp only [mergeFields, h2, if_true, List.mem_cons, List.mem_singleton, not_or,
        List.not_mem_nil, not_false_eq_true, and_true] at hn
      rw [if_neg (by decide)] at hn
      simp only [List.mem_cons, List.mem_singleton, not_or, List.not_mem_nil,
        not_false_eq_true, and_true] at hn
      rw [mapGet_mapSet_ne _ _ _ _ hn.2, mapGet_mapSet_ne _ _ _ _ hn.1]
    · rw [sampleStep_value_merge fmt mf api m st h1 h2 hlab hun]
      refine ⟨_, mapGet_setSampleField_self _ _ _ _ _ (prometheusMakeMergedMeta_get_self _ _), ?_⟩
      intro n hn
      simp only [mergeFields, h1, h2, if_false, List.mem_singleton] at hn
      rw [mapGet_mapSet_ne _ _ _ _ hn]

/-- C3, refuted as stated. Two gauge samples `{a="xy"}` and `{b="xy"}` have
the same merge key `xy`; after both are processed the record under `xy` has no
field `b`, so it does not map the label name of the second sample to its
value. -/
theorem labels_missing_on_existing_merge_record :
    ¬ (∀ l ∈ (gaugeSample [⟨"b", "xy"⟩] float2).Label,
        (mapGet
          (sampleStep integralFmt { Name := "g", Help := "", Typ := MetricType.GAUGE, Metric := [] }
            (plainApi []) (gaugeSample [⟨"b", "xy"⟩] float2)
            (sampleStep integralFmt
              { Name := "g", Help := "", Typ := MetricType.GAUGE, Metric := [] }
              (plainApi []) (gaugeSample [⟨"a", "xy"⟩] float5)
              (initialStores (plainApi [])))).sampleKeys
          "xy").bind (fun r => mapGet r l.Name) = some l.Value) := by
  decide

/-- C3, amended. For a sample of a family that is not excluded: the record it
appends to the data store (fully expanded or roll-up) maps every label name to
the value of the last label of that name, unless the name is a key written
after the labels; in merge mode, when the merge key of a labelled sample is
not bound yet, the record bound to it afterwards maps every label name to the
value of the last label of that name, unless the name is a field the sample
writes into the record; when the merge key is bound already, the record keeps
its fields apart from those the sample writes, so the labels of the sample are
not added to it. -/
theorem labels_as_fields_amended (fmt : Fmt) (mf : MetricFamily) (api : API) (m : Metric)
    (st : Stores) :
    (∀ r, perSampleRecord? fmt mf api m = some r →
      (sampleStep fmt mf api m st).dataStore = st.dataStore ++ [r]
        ∧ ∀ n v, lastLabelValue m n = some v → n ∉ lateKeys fmt m → mapGet r n = some v)
    ∧ (0 < m.Label.length → api.Prometheus.Unflatten = false →
        (mf.Typ = MetricType.SUMMARY → api.Prometheus.Summary = false) →
        (mf.Typ = MetricType.HISTOGRAM → api.Prometheus.Histogram = false) →
        ∃ r, mapGet (sampleStep fmt mf api m st).sampleKeys
              (prometheusMakeMergedMeta st.sampleKeys m).1 = some r
          ∧ (mapGet st.sampleKeys (prometheusMakeMergedMeta st.sampleKeys m).1 = none →
              ∀ n v, lastLabelValue m n = some v → n ∉ mergeFields mf → mapGet r n = some v)
          ∧ (∀ r0, mapGet st.sampleKeys (prometheusMakeMergedMeta st.sampleKeys m).1 = some r0 →
              ∀ n, n ∉ mergeFields mf → mapGet r n = mapGet r0 n)) := by
  refine ⟨fun r hr => ⟨?_, ?_⟩, ?_⟩
  · rw [sampleStep_dataStore, hr]
    rfl
  · intro n v hv hlate
    rw [mapGet_perSampleRecord fmt mf api m r hr n hlate, mapGet_newMetric, hv]
  · intro hlab hun hs hh
    obtain ⟨r, hget, hrest⟩ := sampleStep_merge_get_self fmt mf api m st hlab hun hs hh
    refine ⟨r, hget, ?_, ?_⟩
    · intro hnone n v hv hn
      rw [prometheusMakeMergedMeta_fst] at hnone
      rw [hrest n hn]
      simp only [mergeRecord, hnone]
      rw [mapGet_labelRecord, hv]
    · intro r0 hsome n hn
      rw [prometheusMakeMergedMeta_fst] at hsome
      rw [hrest n hn]
      simp only [mergeRecord, hsome]

/-- Witness of C4: the first sample of `http_requests_total` on the empty
table. -/
theorem prometheusMakeMergedMeta_spec_witness :
    prometheusMakeMergedMeta [] (counterSample [⟨"method", "get"⟩] float5)
        = ("get", [("get", [("method", "get")])])
    ∧ (prometheusMakeMergedMeta [] (counterSample [⟨"method", "get"⟩] float5)).1
        = String.join ((counterSample [⟨"method", "get"⟩] float5).Label.map LabelPair.Value) :=
  ⟨by decide,
    (prometheusMakeMergedMeta_spec [] (counterSample [⟨"method", "get"⟩] float5)).1⟩

/-- Witness of C3, amended: the first sample of `http_requests_total`, whose
merge key `get` is not bound in the initial stores. -/
theorem labels_as_fields_amended_witness :
    ∃ r, mapGet (sampleStep integralFmt httpRequestsTotal (plainApi [])
          (counterSample [⟨"method", "get"⟩] float5) (initialStores (plainApi []))).sampleKeys
          "get" = some r
      ∧ mapGet r "method" = some "get" :=
  ((labels_as_fields_amended integralFmt httpRequestsTotal (plainApi [])
      (counterSample [⟨"method", "get"⟩] float5) (initialStores (plainApi []))).2
      (by decide) rfl (by decide) (by decide)).imp
    (fun _ hr => ⟨hr.1, hr.2.1 (by decide) "method" "get" (by decide) (by decide)⟩)

theorem prometheusMakeQuantiles_eq_writeAll (fmt : Fmt) (m : Metric) (r : Record)
    (mf : MetricFamily) (u : Bool) :
    prometheusMakeQuantiles fmt m r mf u = writeAll r (quantileWrites fmt m mf u) := by
  unfold prometheusMakeQuantiles quantileWrites writeAll
  generalize m.summaryQuantiles = qs
  induction qs generalizing r with
  | nil => rfl
  | cons q rest ih =>
    by_cases hnan : q.Value.isNaN = true
    · simp only [List.foldl_cons, hnan, Bool.not_true, Bool.false_eq_true, if_false,
        List.filter_cons]
      exact ih r
    · simp only [Bool.not_eq_true] at hnan
      simp only [List.foldl_cons, hnan, Bool.not_false, if_true, List.filter_cons,
        List.map_cons, quantileKey]
      cases u <;> exact ih _

theorem prometheusMakeBuckets_eq_writeAll (fmt : Fmt) (m : Metric) (r : Record)
    (mf : MetricFamily) (u : Bool) :
    prometheusMakeBuckets fmt m r mf u = writeAll r (bucketWrites fmt m mf u) := by
  unfold prometheusMakeBuckets bucketWrites writeAll
  generalize m.histogramBuckets = bs
  induction bs generalizing r with
  | nil => rfl
  | cons b rest ih =>
    simp only [List.foldl_cons, List.map_cons, bucketKey]
    cases u <;> exact ih _

/-- The last binding of a key in a list of writes, located. -/
theorem lastWrite_eq_some_iff {kvs : List (String × String)} {k v : String} :
    lastWrite kvs k = some v
      ↔ ∃ pre post, kvs = pre ++ (k, v) :: post ∧ k ∉ post.map Prod.fst := by
  induction kvs with
  | nil => simp [lastWrite]
  | cons kv rest ih =>
    constructor
    · intro h
      cases hr : lastWrite rest k with
      | some w =>
        simp only [lastWrite, hr, Option.some.injEq] at h
        subst h
        obtain ⟨pre, post, heq, hn⟩ := ih.1 hr
        exact ⟨kv :: pre, post, by simp [heq], hn⟩
      | none =>
        by_cases hk : kv.1 = k
        · simp only [lastWrite, hr, hk, if_true, Option.some.injEq] at h
          refine ⟨[], rest, ?_, ?_⟩
          · have : kv = (k, v) := Prod.ext hk h
            simp [this]
          · intro hmem
            obtain ⟨w, hw⟩ := lastWrite_isSome hmem
            rw [hr] at hw
            cases hw
        · simp [lastWrite, hr, hk] at h
    · rintro ⟨pre, post, heq, hn⟩
      cases pre with
      | nil =>
        simp only [List.nil_append, List.cons.injEq] at heq
        obtain ⟨h1, h2⟩ := heq
        subst h1 h2
        simp [lastWrite, lastWrite_eq_none hn]
      | cons p pre' =>
        simp only [List.cons_append, List.cons.injEq] at heq
        obtain ⟨h1, h2⟩ := heq
        have := ih.2 ⟨pre', post, h2, hn⟩
        simp [lastWrite, this]

theorem mapGet_writeAll_last (r : Record) (pre post : List (String × String)) (k v : String)
    (h : k ∉ post.map Prod.fst) :
    mapGet (writeAll r (pre ++ (k, v) :: post)) k = some v := by
  rw [mapGet_writeAll, lastWrite_eq_some_iff.2 ⟨pre, post, rfl, h⟩]

/-- C12, refuted as stated. A summary sample of the family `latency` with the
quantile entry `2 → 5`, rolled up (`Unflatten` off, `Summary` set), so not in
fully-expanded mode: the record it appends binds the bare key `2.000000` to
`5` and has no field `latency.2.000000`. -/
theorem rollup_quantile_key_has_no_family_prefix :
    ¬ (∀ r ∈ (sampleStep integralFmt
          { Name := "latency", Help := "", Typ := MetricType.SUMMARY, Metric := [] }
          { plainApi [] with Prometheus := { (plainApi []).Prometheus with Summary := true } }
          (summarySample [] ⟨5, float2, [⟨float2, float5⟩]⟩)
          (initialStores (plainApi []))).dataStore,
        mapGet r ("latency" ++ ("." ++ integralFmt.sprintfF float2))
          = some (integralFmt.sprintFloat float5))
    ∧ (sampleStep integralFmt
          { Name := "latency", Help := "", Typ := MetricType.SUMMARY, Metric := [] }
          { plainApi [] with Prometheus := { (plainApi []).Prometheus with Summary := true } }
          (summarySample [] ⟨5, float2, [⟨float2, float5⟩]⟩)
          (initialStores (plainApi []))).dataStore
        = [[("name", "latency"), ("help", ""), ("type", "SUMMARY"), ("count", "5"), ("sum", "2"),
            ("event_type", "appSummarySample"), ("2.000000", "5")]] := by
  decide

/-- C12, amended. The program expands the quantiles of a summary sample in
fully-expanded mode (`Unflatten` set) and in roll-up mode (`Summary` set), and
in both it calls `prometheusMakeQuantiles` with `unflatten` true: the record the
sample appends is the result of that call on the record built so far, so in
both modes the key of an entry is the bare `%f` rendering of its quantile.  For
every record, `prometheusMakeQuantiles` writes the bindings of the quantile
entries whose value is not NaN, in entry order, and nothing else: the key of an
entry is the `%f` rendering of its quantile when `unflatten` is true, which is
how the program calls it, and the family name, a dot and that rendering when
`unflatten` is false; the value is the rendered quantile value.  Hence a key
that is not the key of an entry with a non-NaN value keeps its binding, or
stays absent; every entry with a non-NaN value has its key bound afterwards,
whatever NaN entries surround it; and the key of such an entry is bound to its
rendered value, provided no later entry with a non-NaN value has the same
key. -/
theorem quantile_fields_amended (fmt : Fmt) (m : Metric) (mf : MetricFamily) :
    (∀ (api : API) (st : Stores), mf.Typ = MetricType.SUMMARY →
        api.Prometheus.Unflatten = true →
        (sampleStep fmt mf api m st).dataStore
          = st.dataStore
            ++ [prometheusMakeQuantiles fmt m
                  (mapSet (mapSet (newMetric mf api m) "count" (sprintUint m.summarySampleCount))
                    "sum" (fmt.sprintFloat m.summarySampleSum))
                  mf true])
    ∧ (∀ (api : API) (st : Stores), mf.Typ = MetricType.SUMMARY →
        api.Prometheus.Unflatten = false → api.Prometheus.Summary = true →
        (sampleStep fmt mf api m st).dataStore
          = st.dataStore
            ++ [prometheusMakeQuantiles fmt m
                  (mapSet
                    (mapSet
                      (mapSet (newMetric mf api m) "count" (sprintUint m.summarySampleCount))
                      "sum" (fmt.sprintFloat m.summarySampleSum))
                    "event_type" (rollupEvent api "SummarySample"))
                  mf true])
    ∧ (∀ (api : API) (st : Stores), mf.Typ = MetricType.SUMMARY →
        (api.Prometheus.Unflatten = true ∨ api.Prometheus.Summary = true) →
        ∃ r, (sampleStep fmt mf api m st).dataStore = st.dataStore ++ [r]
          ∧ (∀ pre q post, m.summaryQuantiles = pre ++ q :: post → q.Value.isNaN = false →
              (∀ q' ∈ post, q'.Value.isNaN = false →
                fmt.sprintfF q'.Quantile ≠ fmt.sprintfF q.Quantile) →
              mapGet r (fmt.sprintfF q.Quantile) = some (fmt.sprintFloat q.Value))
          ∧ (∀ q ∈ m.summaryQuantiles, q.Value.isNaN = false →
              ∃ v, mapGet r (fmt.sprintfF q.Quantile) = some v))
    ∧ ∀ (r : Record) (u : Bool),
      prometheusMakeQuantiles fmt m r mf u
          = writeAll r
              ((m.summaryQuantiles.filter (fun q => !q.Value.isNaN)).map
                (fun q =>
                  (if u then fmt.sprintfF q.Quantile
                    else mf.Name ++ ("." ++ fmt.sprintfF q.Quantile),
                   fmt.sprintFloat q.Value)))
      ∧ (∀ k, (∀ q ∈ m.summaryQuantiles, q.Value.isNaN = false → quantileKey fmt mf u q ≠ k) →
          mapGet (prometheusMakeQuantiles fmt m r mf u) k = mapGet r k)
      ∧ (∀ q ∈ m.summaryQuantiles, q.Value.isNaN = false →
          ∃ v, mapGet (prometheusMakeQuantiles fmt m r mf u) (quantileKey fmt mf u q) = some v)
      ∧ (∀ pre q post, m.summaryQuantiles = pre ++ q :: post → q.Value.isNaN = false →
          (∀ q' ∈ post, q'.Value.isNaN = false →
            quantileKey fmt mf u q' ≠ quantileKey fmt mf u q) →
          mapGet (prometheusMakeQuantiles fmt m r mf u) (quantileKey fmt mf u q)
            = some (fmt.sprintFloat q.Value)) := by
  have hfun : ∀ (r : Record) (u : Bool),
      (∀ k, (∀ q ∈ m.summaryQuantiles, q.Value.isNaN = false → quantileKey fmt mf u q ≠ k) →
          mapGet (prometheusMakeQuantiles fmt m r mf u) k = mapGet r k)
      ∧ (∀ q ∈ m.summaryQuantiles, q.Value.isNaN = false →
          ∃ v, mapGet (prometheusMakeQuantiles fmt m r mf u) (quantileKey fmt mf u q) = some v)
      ∧ (∀ pre q post, m.summaryQuantiles = pre ++ q :: post → q.Value.isNaN = false →
          (∀ q' ∈ post, q'.Value.isNaN = false →
            quantileKey fmt mf u q' ≠ quantileKey fmt mf u q) →
          mapGet (prometheusMakeQuantiles fmt m r mf u) (quantileKey fmt mf u q)
            = some (fmt.sprintFloat q.Value)) := by
    intro r u
    refine ⟨?_, ?_, ?_⟩
    · intro k hk
      rw [prometheusMakeQuantiles_eq_writeAll]
      apply mapGet_writeAll_of_not_mem
      simp only [quantileWrites, List.map_map, List.mem_map, List.mem_filter,
        Function.comp_apply, not_exists, not_and, and_imp]
      intro q hq hnan
      exact hk q hq (by simpa using hnan)
    · intro q hq hnan
      rw [prometheusMakeQuantiles_eq_writeAll, mapGet_writeAll]
      have hmem : quantileKey fmt mf u q ∈ (quantileWrites fmt m mf u).map Prod.fst := by
        simp only [quantileWrites, List.map_map, List.mem_map, List.mem_filter,
          Function.comp_apply]
        exact ⟨q, ⟨hq, by simp [hnan]⟩, rfl⟩
      obtain ⟨v, hv⟩ := lastWrite_isSome hmem
      exact ⟨v, by rw [hv]⟩
    · intro pre q post heq hnan hlater
      rw [prometheusMakeQuantiles_eq_writeAll]
      have hw : quantileWrites fmt m mf u
          = (pre.filter (fun q => !q.Value.isNaN)).map
              (fun q => (quantileKey fmt mf u q, fmt.sprintFloat q.Value))
            ++ (quantileKey fmt mf u q, fmt.sprintFloat q.Value)
              :: (post.filter (fun q => !q.Value.isNaN)).map
                (fun q => (quantileKey fmt mf u q, fmt.sprintFloat q.Value)) := by
        simp [quantileWrites, heq, List.filter_cons, hnan]
      rw [hw]
      apply mapGet_writeAll_last
      simp only [List.map_map, List.mem_map, List.mem_filter, Function.comp_apply, not_exists,
        not_and, and_imp]
      intro q' hq' hnan'
      exact hlater q' hq' (by simpa using hnan')
  have hexp : ∀ (api : API) (st : Stores), mf.Typ = MetricType.SUMMARY →
      api.Prometheus.Unflatten = true →
      (sampleStep fmt mf api m st).dataStore
        = st.dataStore
          ++ [prometheusMakeQuantiles fmt m
                (mapSet (mapSet (newMetric mf api m) "count" (sprintUint m.summarySampleCount))
                  "sum" (fmt.sprintFloat m.summarySampleSum))
                mf true] := by
    intro api st htyp hun
    rw [sampleStep_unflatten fmt mf api m st hun]
    simp only [expandedRecord, htyp, if_true, summaryExpanded, hun]
  have hroll : ∀ (api : API) (st : Stores), mf.Typ = MetricType.SUMMARY →
      api.Prometheus.Unflatten = false → api.Prometheus.Summary = true →
      (sampleStep fmt mf api m st).dataStore
        = st.dataStore
          ++ [prometheusMakeQuantiles fmt m
                (mapSet
                  (mapSet
                    (mapSet (newMetric mf api m) "count" (sprintUint m.summarySampleCount))
                    "sum" (fmt.sprintFloat m.summarySampleSum))
                  "event_type" (rollupEvent api "SummarySample"))
                mf true] := by
    intro api st htyp hun hsum
    rw [sampleStep_rollup fmt mf api m st hun (Or.inl ⟨htyp, hsum⟩)]
    simp only [rollupRecord, htyp, if_true, summaryRollup]
  have hkey : ∀ q : Quantile, quantileKey fmt mf true q = fmt.sprintfF q.Quantile :=
    fun q => by simp [quantileKey]
  refine ⟨hexp, hroll, ?_,
    fun r u => ⟨prometheusMakeQuantiles_eq_writeAll fmt m r mf u, hfun r u⟩⟩
  intro api st htyp hmode
  have hrec : ∃ base, (sampleStep fmt mf api m st).dataStore
      = st.dataStore ++ [prometheusMakeQuantiles fmt m base mf true] := by
    by_cases hun : api.Prometheus.Unflatten = true
    · exact ⟨_, hexp api st htyp hun⟩
    · simp only [Bool.not_eq_true] at hun
      have hsum : api.Prometheus.Summary = true := by
        rcases hmode with h | h
        · rw [hun] at h
          cases h
        · exact h
      exact ⟨_, hroll api st htyp hun hsum⟩
  obtain ⟨base, hbase⟩ := hrec
  refine ⟨_, hbase, ?_, ?_⟩
  · intro pre q post heq hnan hlater
    have := (hfun base true).2.2 pre q post heq hnan
      (fun q' hq' hnan' => by rw [hkey, hkey]; exact hlater q' hq' hnan')
    rwa [hkey] at this
  · intro q hq hnan
    have := (hfun base true).2.1 q hq hnan
    rwa [hkey] at this

/-- C13. `prometheusMakeBuckets` writes one binding per bucket, in bucket
order, and nothing else: the key of a bucket is the `%f` rendering of its upper
bound when `unflatten` is true and the family name, a dot and that rendering
otherwise, the value is its rendered cumulative count.  Hence a key that is no
bucket key keeps its binding, or stays absent, and a bucket key is bound to the
rendered cumulative count of the last bucket with that key. -/
theorem buckets_written (fmt : Fmt) (m : Metric) (r : Record) (mf : MetricFamily) (u : Bool) :
    prometheusMakeBuckets fmt m r mf u
        = writeAll r
            (m.histogramBuckets.map
              (fun b =>
                (if u then fmt.sprintfF b.UpperBound
                  else mf.Name ++ ("." ++ fmt.sprintfF b.UpperBound),
                 sprintUint b.CumulativeCount)))
    ∧ (∀ k, (∀ b ∈ m.histogramBuckets, bucketKey fmt mf u b ≠ k) →
        mapGet (prometheusMakeBuckets fmt m r mf u) k = mapGet r k)
    ∧ (∀ pre b post, m.histogramBuckets = pre ++ b :: post →
        (∀ b' ∈ post, bucketKey fmt mf u b' ≠ bucketKey fmt mf u b) →
        mapGet (prometheusMakeBuckets fmt m r mf u) (bucketKey fmt mf u b)
          = some (sprintUint b.CumulativeCount)) := by
  refine ⟨prometheusMakeBuckets_eq_writeAll fmt m r mf u, ?_, ?_⟩
  · intro k hk
    rw [prometheusMakeBuckets_eq_writeAll]
    apply mapGet_writeAll_of_not_mem
    simp only [bucketWrites, List.map_map, List.mem_map, Function.comp_apply, not_exists,
      not_and]
    intro b hb
    exact hk b hb
  · intro pre b post heq hlater
    rw [prometheusMakeBuckets_eq_writeAll]
    have hw : bucketWrites fmt m mf u
        = pre.map (fun b => (bucketKey fmt mf u b, sprintUint b.CumulativeCount))
          ++ (bucketKey fmt mf u b, sprintUint b.CumulativeCount)
            :: post.map (fun b => (bucketKey fmt mf u b, sprintUint b.CumulativeCount)) := by
      simp [bucketWrites, heq]
    rw [hw]
    apply mapGet_writeAll_last
    simp only [List.map_map, List.mem_map, Function.comp_apply, not_exists, not_and]
    intro b' hb'
    exact hlater b' hb'

/-- Witness of C12, amended: a NaN entry between two entries with a value, on a
record that already holds a field, and the same sample rolled up. -/
theorem quantile_fields_amended_witness :
    floatNaN.isNaN = true
    ∧ prometheusMakeQuantiles integralFmt
        (summarySample [] ⟨5, float2, [⟨float2, float5⟩, ⟨float5, floatNaN⟩, ⟨float5, float2⟩,
          ⟨Float64.zero, floatNaN⟩]⟩)
        [("name", "latency")]
        { Name := "latency", Help := "", Typ := MetricType.SUMMARY, Metric := [] } true
      = [("name", "latency"), ("2.000000", "5"), ("5.000000", "2")]
    ∧ (sampleStep integralFmt
          { Name := "latency", Help := "", Typ := MetricType.SUMMARY, Metric := [] }
          { plainApi [] with Prometheus := { (plainApi []).Prometheus with Summary := true } }
          (summarySample [] ⟨5, float2, [⟨float2, float5⟩, ⟨float5, floatNaN⟩, ⟨float5, float2⟩,
            ⟨Float64.zero, floatNaN⟩]⟩)
          (initialStores (plainApi []))).dataStore
        = [[("name", "latency"), ("help", ""), ("type", "SUMMARY"), ("count", "5"), ("sum", "2"),
            ("event_type", "appSummarySample"), ("2.000000", "5"), ("5.000000", "2")]] :=
  ⟨by decide,
    ((quantile_fields_amended integralFmt
      (summarySample [] ⟨5, float2, [⟨float2, float5⟩, ⟨float5, floatNaN⟩, ⟨float5, float2⟩,
        ⟨Float64.zero, floatNaN⟩]⟩)
      { Name := "latency", Help := "", Typ := MetricType.SUMMARY, Metric := [] }).2.2.2
      [("name", "latency")] true).1.trans (by decide),
    ((quantile_fields_amended integralFmt
      (summarySample [] ⟨5, float2, [⟨float2, float5⟩, ⟨float5, floatNaN⟩, ⟨float5, float2⟩,
        ⟨Float64.zero, floatNaN⟩]⟩)
      { Name := "latency", Help := "", Typ := MetricType.SUMMARY, Metric := [] }).2.1
      { plainApi [] with Prometheus := { (plainApi []).Prometheus with Summary := true } }
      (initialStores (plainApi [])) rfl rfl rfl).trans (by decide)⟩

/-- Witness of C13: two buckets with the same upper bound and a third one, with
`unflatten` false. -/
theorem buckets_written_witness :
    prometheusMakeBuckets integralFmt
        (histogramSample [] ⟨5, float2, [⟨1, float2⟩, ⟨3, float5⟩, ⟨4, float2⟩]⟩)
        [("name", "h")]
        { Name := "h", Help := "", Typ := MetricType.HISTOGRAM, Metric := [] } false
      = [("name", "h"), ("h.2.000000", "4"), ("h.5.000000", "3")] :=
  (buckets_written integralFmt
    (histogramSample [] ⟨5, float2, [⟨1, float2⟩, ⟨3, float5⟩, ⟨4, float2⟩]⟩)
    [("name", "h")]
    { Name := "h", Help := "", Typ := MetricType.HISTOGRAM, Metric := [] } false).1.trans
    (by decide)

theorem mapGet_quantiles_of_ne (fmt : Fmt) (m : Metric) (r : Record) (mf : MetricFamily)
    (k : String) (hk : ∀ q ∈ m.summaryQuantiles, fmt.sprintfF q.Quantile ≠ k) :
    mapGet (prometheusMakeQuantiles fmt m r mf true) k = mapGet r k := by
  rw [prometheusMakeQuantiles_eq_writeAll]
  apply mapGet_writeAll_of_not_mem
  simp only [quantileWrites, quantileKey, List.map_map, List.mem_map, List.mem_filter,
    Function.comp_apply, not_exists, not_and, and_imp, if_true]
  intro q hq _
  exact hk q hq

theorem mapGet_buckets_of_ne (fmt : Fmt) (m : Metric) (r : Record) (mf : MetricFamily)
    (k : String) (hk : ∀ b ∈ m.histogramBuckets, fmt.sprintfF b.UpperBound ≠ k) :
    mapGet (prometheusMakeBuckets fmt m r mf true) k = mapGet r k := by
  rw [prometheusMakeBuckets_eq_writeAll]
  apply mapGet_writeAll_of_not_mem
  simp only [bucketWrites, bucketKey, List.map_map, List.mem_map, Function.comp_apply,
    not_exists, not_and, if_true]
  intro b hb
  exact hk b hb

/-- C11. The roll-up record of a summary sample (`Summary` set) or of a
histogram sample (`Histogram` set), `Unflatten` being off: with `base` the
`FlattenedEvent` when it is not empty and the API name otherwise, and `T` the
suffix `SummarySample` or `HistogramSample` of the family type, the field
`event_type` of the record is `base` with every `Sample` replaced by `T` when
`base` contains `Sample`, and `base` followed by `T` otherwise, whatever the
labels and the static attributes are.  The `%f` rendering of a quantile or of an
upper bound is taken not to be the string `event_type`. -/
theorem rollup_event_type (fmt : Fmt) (mf : MetricFamily) (api : API) (m : Metric) (st : Stores)
    (hun : api.Prometheus.Unflatten = false)
    (hmode : (mf.Typ = MetricType.SUMMARY ∧ api.Prometheus.Summary = true)
      ∨ (mf.Typ = MetricType.HISTOGRAM ∧ api.Prometheus.Histogram = true))
    (hq : ∀ q ∈ m.summaryQuantiles, fmt.sprintfF q.Quantile ≠ "event_type")
    (hb : ∀ b ∈ m.histogramBuckets, fmt.sprintfF b.UpperBound ≠ "event_type") :
    ∃ r, (sampleStep fmt mf api m st).dataStore = st.dataStore ++ [r]
      ∧ mapGet r "event_type"
          = some (if stringsContains (rollupBase api) "Sample" = true then
              stringsReplaceAll (rollupBase api) "Sample" (rollupSuffix mf)
            else rollupBase api ++ rollupSuffix mf) := by
  refine ⟨rollupRecord fmt mf api m, ?_, ?_⟩
  · rw [sampleStep_rollup fmt mf api m st hun hmode]
  · rcases hmode with ⟨ht, _⟩ | ⟨ht, _⟩
    · simp only [rollupRecord, ht, if_true, summaryRollup]
      rw [mapGet_quantiles_of_ne fmt m _ mf "event_type" hq, mapGet_mapSet_self]
      simp [rollupEvent, rollupBase, rollupSuffix, ht]
    · simp only [rollupRecord, ht, histogramRollup]
      rw [if_neg (by decide), mapGet_buckets_of_ne fmt m _ mf "event_type" hb, mapGet_mapSet_self]
      simp [rollupEvent, rollupBase, rollupSuffix, ht]

/-- Witness of C11: a labelled summary sample with a label and a static
attribute named `event_type`, rolled up under the flattened event
`MySampleOfSamples`. -/
theorem rollup_event_type_witness :
    ∃ r, (sampleStep integralFmt
            { Name := "latency", Help := "", Typ := MetricType.SUMMARY, Metric := [] }
            (rollupApi "MySampleOfSamples")
            (summarySample [⟨"event_type", "label"⟩] ⟨5, float2, [⟨float2, float5⟩]⟩)
            (initialStores (rollupApi "MySampleOfSamples"))).dataStore = [] ++ [r]
      ∧ mapGet r "event_type" = some "MySummarySampleOfSummarySamples" :=
  rollup_event_type integralFmt
    { Name := "latency", Help := "", Typ := MetricType.SUMMARY, Metric := [] }
    (rollupApi "MySampleOfSamples")
    (summarySample [⟨"event_type", "label"⟩] ⟨5, float2, [⟨float2, float5⟩]⟩)
    (initialStores (rollupApi "MySampleOfSamples")) rfl (Or.inl ⟨rfl, rfl⟩)
    (by decide) (by decide)

theorem flattenedKey_of_none (name : String) (metric : Record) (km : List String)
    (h : ∀ c ∈ km, mapGet metric c = none) : flattenedKey name metric km = name := by
  induction km with
  | nil => rfl
  | cons c rest ih =>
    simp only [flattenedKey, h c (List.mem_cons_self _ _)]
    exact ih (fun d hd => h d (List.mem_cons_of_mem _ hd))

theorem flattenedKey_of_first (name : String) (metric : Record) (pre : List String)
    (c : String) (post : List String) (v : String)
    (hpre : ∀ d ∈ pre, mapGet metric d = none) (hc : mapGet metric c = some v) :
    flattenedKey name metric (pre ++ c :: post) = name ++ ("." ++ v) := by
  induction pre with
  | nil => simp [flattenedKey, hc]
  | cons d rest ih =>
    simp only [List.cons_append, flattenedKey, hpre d (List.mem_cons_self _ _)]
    exact ih (fun e he => hpre e (List.mem_cons_of_mem _ he))

theorem sampleStep_flatten (fmt : Fmt) (mf : MetricFamily) (api : API) (m : Metric)
    (st : Stores) (hs : mf.Typ ≠ MetricType.SUMMARY) (hh : mf.Typ ≠ MetricType.HISTOGRAM)
    (hlab : m.Label = []) (hun : api.Prometheus.Unflatten = false) :
    sampleStep fmt mf api m st
      = { st with
          flattenedSample :=
            mapSet (mapSet st.flattenedSample "name" "main")
              (flattenedKey mf.Name (valueMetric fmt mf api m) api.Prometheus.KeyMerge)
              (fmt.sprintFloat (getValue m)) } := by
  simp [sampleStep, valueMetric, hs, hh, hlab, hun]

theorem writeAll_append (r : Record) (xs ys : List (String × String)) :
    writeAll r (xs ++ ys) = writeAll (writeAll r xs) ys := by
  simp [writeAll, List.foldl_append]

theorem processSamples_flatten (fmt : Fmt) (api : API) (samples : List (MetricFamily × Metric))
    (st : Stores) (hun : api.Prometheus.Unflatten = false)
    (hty : ∀ p ∈ samples, p.1.Typ ≠ MetricType.SUMMARY ∧ p.1.Typ ≠ MetricType.HISTOGRAM)
    (hlab : ∀ p ∈ samples, p.2.Label = [])
    (hkm : ∀ p ∈ samples, ∀ c ∈ api.Prometheus.KeyMerge,
      mapGet (valueMetric fmt p.1 api p.2) c = none) :
    processSamples fmt api samples st
      = { st with flattenedSample := writeAll st.flattenedSample (flattenedWrites fmt samples) } := by
  induction samples generalizing st with
  | nil => rfl
  | cons p rest ih =>
    have hp := List.mem_cons_self p rest
    have hstep : processSamples fmt api (p :: rest) st
        = processSamples fmt api rest (sampleStep fmt p.1 api p.2 st) := rfl
    rw [hstep, ih _ (fun q hq => hty q (List.mem_cons_of_mem _ hq))
      (fun q hq => hlab q (List.mem_cons_of_mem _ hq))
      (fun q hq => hkm q (List.mem_cons_of_mem _ hq)),
      sampleStep_flatten fmt p.1 api p.2 st (hty p hp).1 (hty p hp).2 (hlab p hp) hun,
      flattenedKey_of_none _ _ _ (hkm p hp)]
    rfl

theorem mapSet_keys {V : Type} (m : List (String × V)) (k : String) (v : V) :
    (mapSet m k v).map Prod.fst
      = if k ∈ m.map Prod.fst then m.map Prod.fst else m.map Prod.fst ++ [k] := by
  induction m with
  | nil => simp [mapSet]
  | cons p t ih =>
    obtain ⟨k', v'⟩ := p
    by_cases h : k' = k
    · subst h
      simp [mapSet]
    · have h' : ¬ k = k' := fun e => h e.symm
      simp only [mapSet, h, if_false, List.map_cons, ih, List.mem_cons, h', false_or]
      split_ifs <;> simp

theorem mapSet_keys_nodup {V : Type} (m : List (String × V)) (k : String) (v : V)
    (h : (m.map Prod.fst).Nodup) : ((mapSet m k v).map Prod.fst).Nodup := by
  rw [mapSet_keys]
  split_ifs with hk
  · exact h
  · exact List.Nodup.append h (List.nodup_singleton k) (by simpa using hk)

theorem writeAll_keys_nodup (kvs : List (String × String)) (r : Record)
    (h : (r.map Prod.fst).Nodup) : ((writeAll r kvs).map Prod.fst).Nodup := by
  induction kvs generalizing r with
  | nil => exact h
  | cons kv rest ih => exact ih _ (mapSet_keys_nodup r kv.1 kv.2 h)

/-- C14, refuted as stated. A label-less gauge named `name` with value 5,
followed by a label-less gauge named `x`: afterwards the field `name` of the
flattened sample is the constant `main`, not the rendered value 5 of the last
sample named `name`. -/
theorem flattened_metric_called_name_is_overwritten :
    ¬ (mapGet
        (processSamples integralFmt (plainApi [])
          [(gaugeFamily "name" [], gaugeSample [] float5),
           (gaugeFamily "x" [], gaugeSample [] float2)]
          (initialStores (plainApi []))).flattenedSample "name"
        = some (integralFmt.sprintFloat (getValue (gaugeSample [] float5)))) := by
  decide

/-- C14, amended. A sequence of label-less gauge, counter or untyped samples,
processed with `Unflatten` off while no `KeyMerge` candidate is a field of
their records: the data store and the merge-key table are unchanged; for every
metric name other than `name` that occurs, the flattened sample maps it to the
rendered value of the last sample of that name; it maps `name` to `main` when
the last sample is not named `name`; every other key is bound as before; and
its keys stay distinct, so each metric name has one field. -/
theorem flattened_last_value_wins (fmt : Fmt) (api : API)
    (samples : List (MetricFamily × Metric)) (st : Stores)
    (hun : api.Prometheus.Unflatten = false)
    (hty : ∀ p ∈ samples, p.1.Typ ≠ MetricType.SUMMARY ∧ p.1.Typ ≠ MetricType.HISTOGRAM)
    (hlab : ∀ p ∈ samples, p.2.Label = [])
    (hkm : ∀ p ∈ samples, ∀ c ∈ api.Prometheus.KeyMerge,
      mapGet (valueMetric fmt p.1 api p.2) c = none) :
    (processSamples fmt api samples st).dataStore = st.dataStore
    ∧ (processSamples fmt api samples st).sampleKeys = st.sampleKeys
    ∧ (∀ pre p post, samples = pre ++ p :: post → p.1.Name ≠ "name" →
        (∀ q ∈ post, q.1.Name ≠ p.1.Name) →
        mapGet (processSamples fmt api samples st).flattenedSample p.1.Name
          = some (fmt.sprintFloat (getValue p.2)))
    ∧ (∀ pre p, samples = pre ++ [p] → p.1.Name ≠ "name" →
        mapGet (processSamples fmt api samples st).flattenedSample "name" = some "main")
    ∧ (∀ k, k ≠ "name" → (∀ p ∈ samples, p.1.Name ≠ k) →
        mapGet (processSamples fmt api samples st).flattenedSample k
          = mapGet st.flattenedSample k)
    ∧ ((st.flattenedSample.map Prod.fst).Nodup →
        ((processSamples fmt api samples st).flattenedSample.map Prod.fst).Nodup) := by
  rw [processSamples_flatten fmt api samples st hun hty hlab hkm]
  refine ⟨rfl, rfl, ?_, ?_, ?_, ?_⟩
  · intro pre p post heq hname hpost
    have hw : flattenedWrites fmt samples
        = (flattenedWrites fmt pre ++ [("name", "main")])
          ++ (p.1.Name, fmt.sprintFloat (getValue p.2)) :: flattenedWrites fmt post := by
      simp [flattenedWrites, heq]
    simp only [hw]
    apply mapGet_writeAll_last
    simp only [flattenedWrites, List.map_flatMap, List.mem_flatMap, List.map_cons, List.map_nil,
      List.mem_cons, List.mem_singleton, List.not_mem_nil, or_false, not_exists, not_and, not_or]
    intro q hq
    exact ⟨hname, fun h => hpost q hq h.symm⟩
  · intro pre p heq hname
    have hw : flattenedWrites fmt samples
        = flattenedWrites fmt pre
          ++ ("name", "main") :: [(p.1.Name, fmt.sprintFloat (getValue p.2))] := by
      simp [flattenedWrites, heq]
    simp only [hw]
    apply mapGet_writeAll_last
    simpa using fun h => hname h.symm
  · intro k hk hnot
    apply mapGet_writeAll_of_not_mem
    simp only [flattenedWrites, List.map_flatMap, List.mem_flatMap, List.map_cons, List.map_nil,
      List.mem_cons, List.mem_singleton, List.not_mem_nil, or_false, not_exists, not_and, not_or]
    intro q hq
    exact ⟨hk, fun h => hnot q hq h.symm⟩
  · intro hn
    exact writeAll_keys_nodup _ _ hn

/-- Witness of C14, amended: the gauges `x=5`, `x=2`, `y=5` without labels, in
this order, on the initial stores. -/
theorem flattened_last_value_wins_witness :
    (processSamples integralFmt (plainApi [])
        [(gaugeFamily "x" [], gaugeSample [] float5), (gaugeFamily "x" [], gaugeSample [] float2),
         (gaugeFamily "y" [], gaugeSample [] float5)]
        (initialStores (plainApi []))).flattenedSample
      = [("event_type", "appSample"), ("name", "main"), ("x", "2"), ("y", "5")]
    ∧ mapGet (processSamples integralFmt (plainApi [])
        [(gaugeFamily "x" [], gaugeSample [] float5), (gaugeFamily "x" [], gaugeSample [] float2),
         (gaugeFamily "y" [], gaugeSample [] float5)]
        (initialStores (plainApi []))).flattenedSample "x"
      = some (integralFmt.sprintFloat float2) :=
  ⟨by decide,
    (flattened_last_value_wins integralFmt (plainApi [])
      [(gaugeFamily "x" [], gaugeSample [] float5), (gaugeFamily "x" [], gaugeSample [] float2),
       (gaugeFamily "y" [], gaugeSample [] float5)]
      (initialStores (plainApi [])) rfl (by decide) (by decide) (by decide)).2.2.1
      [(gaugeFamily "x" [], gaugeSample [] float5)] (gaugeFamily "x" [], gaugeSample [] float2)
      [(gaugeFamily "y" [], gaugeSample [] float5)] rfl (by decide) (by decide)⟩

/-- C15. A label-less gauge, counter or untyped sample processed with
`Unflatten` off enters the flattened sample, after the constant `name=main`,
under the metric name followed by a dot and the value of the first `KeyMerge`
candidate that is a field of the record of the sample, whatever candidates
follow it, and under the bare metric name when no candidate is a field of that
record. -/
theorem flattened_key_first_candidate (fmt : Fmt) (mf : MetricFamily) (api : API) (m : Metric)
    (st : Stores) (hs : mf.Typ ≠ MetricType.SUMMARY) (hh : mf.Typ ≠ MetricType.HISTOGRAM)
    (hlab : m.Label = []) (hun : api.Prometheus.Unflatten = false) :
    (∀ pre c post v, api.Prometheus.KeyMerge = pre ++ c :: post →
        (∀ d ∈ pre, mapGet (valueMetric fmt mf api m) d = none) →
        mapGet (valueMetric fmt mf api m) c = some v →
        (sampleStep fmt mf api m st).flattenedSample
          = mapSet (mapSet st.flattenedSample "name" "main") (mf.Name ++ "." ++ v)
              (fmt.sprintFloat (getValue m)))
    ∧ ((∀ d ∈ api.Prometheus.KeyMerge, mapGet (valueMetric fmt mf api m) d = none) →
        (sampleStep fmt mf api m st).flattenedSample
          = mapSet (mapSet st.flattenedSample "name" "main") mf.Name
              (fmt.sprintFloat (getValue m))) := by
  rw [sampleStep_flatten fmt mf api m st hs hh hlab hun]
  constructor
  · intro pre c post v hkm hpre hc
    simp only [hkm, flattenedKey_of_first mf.Name _ pre c post v hpre hc, String.append_assoc]
  · intro hnone
    simp only [flattenedKey_of_none _ _ _ hnone]

/-- Witness of C15: the candidates `zone`, `env`, `type` against a gauge `x`
with the static attribute `env=prod`; `zone` is absent, `env` and `type` are
present, and `env` comes first. -/
theorem flattened_key_first_candidate_witness :
    (sampleStep integralFmt (gaugeFamily "x" []) (keyMergeApi [("env", "prod")] ["zone", "env", "type"])
        (gaugeSample [] float5)
        (initialStores (keyMergeApi [("env", "prod")] ["zone", "env", "type"]))).flattenedSample
      = mapSet (mapSet [("event_type", "appSample")] "name" "main") ("x" ++ "." ++ "prod")
          (integralFmt.sprintFloat (getValue (gaugeSample [] float5)))
    ∧ mapSet (mapSet [("event_type", "appSample")] "name" "main") ("x" ++ "." ++ "prod")
          (integralFmt.sprintFloat (getValue (gaugeSample [] float5)))
        = [("event_type", "appSample"), ("name", "main"), ("x.prod", "5")] :=
  ⟨(flattened_key_first_candidate integralFmt (gaugeFamily "x" [])
      (keyMergeApi [("env", "prod")] ["zone", "env", "type"]) (gaugeSample [] float5)
      (initialStores (keyMergeApi [("env", "prod")] ["zone", "env", "type"]))
      (by decide) (by decide) rfl rfl).1 ["zone"] "env" ["type"] "prod" rfl (by decide)
      (by decide),
    by decide⟩

theorem newFamilyLoop_dataStore (fmt : Fmt) (mf : MetricFamily) (api : API) (ms : List Metric)
    (st : Stores) (hex : excluded mf api = false) :
    (newFamilyLoop fmt mf api ms st).dataStore
      = st.dataStore ++ ms.flatMap (fun m => (perSampleRecord? fmt mf api m).toList) := by
  induction ms generalizing st with
  | nil => simp [newFamilyLoop]
  | cons m rest ih =>
    simp only [newFamilyLoop, hex, Bool.false_eq_true, if_false, ih, sampleStep_dataStore,
      List.flatMap_cons, List.append_assoc]

theorem consumeFamilies_dataStore_aux (fmt : Fmt) (api : API) (fams : List MetricFamily)
    (st : Stores) :
    (fams.foldl (fun st mf => prometheusNewFamily fmt mf api st) st).dataStore
      = st.dataStore ++ perSampleRecords fmt api fams := by
  induction fams generalizing st with
  | nil => simp [perSampleRecords]
  | cons mf rest ih =>
    rw [List.foldl_cons, ih]
    cases hex : excluded mf api with
    | true =>
      simp [prometheusNewFamily, newFamilyLoop_of_excluded fmt mf api _ st hex, perSampleRecords,
        List.filter_cons, hex]
    | false =>
      simp [prometheusNewFamily, newFamilyLoop_dataStore fmt mf api _ st hex, perSampleRecords,
        List.filter_cons, hex]

theorem prometheusMakeMergedMeta_keys_nodup (t : List (String × Record)) (m : Metric)
    (h : (t.map Prod.fst).Nodup) : ((prometheusMakeMergedMeta t m).2.map Prod.fst).Nodup := by
  simp only [prometheusMakeMergedMeta]
  split
  · exact mapSet_keys_nodup _ _ _ h
  · exact h

theorem setSampleField_keys_nodup (t : List (String × Record)) (k f v : String)
    (h : (t.map Prod.fst).Nodup) : ((setSampleField t k f v).map Prod.fst).Nodup := by
  unfold setSampleField
  split
  · exact mapSet_keys_nodup _ _ _ h
  · exact h

theorem sampleStep_sampleKeys_nodup (fmt : Fmt) (mf : MetricFamily) (api : API) (m : Metric)
    (st : Stores) (h : (st.sampleKeys.map Prod.fst).Nodup) :
    ((sampleStep fmt mf api m st).sampleKeys.map Prod.fst).Nodup := by
  unfold sampleStep
  simp only [mergeCountSum]
  split_ifs <;>
    first
    | exact h
    | exact setSampleField_keys_nodup _ _ _ _ (prometheusMakeMergedMeta_keys_nodup _ _ h)
    | exact setSampleField_keys_nodup _ _ _ _
        (setSampleField_keys_nodup _ _ _ _ (prometheusMakeMergedMeta_keys_nodup _ _ h))

theorem newFamilyLoop_sampleKeys_nodup (fmt : Fmt) (mf : MetricFamily) (api : API)
    (ms : List Metric) (st : Stores) (h : (st.sampleKeys.map Prod.fst).Nodup) :
    ((newFamilyLoop fmt mf api ms st).sampleKeys.map Prod.fst).Nodup := by
  induction ms generalizing st with
  | nil => exact h
  | cons m rest ih =>
    unfold newFamilyLoop
    split_ifs
    · exact h
    · exact ih _ (sampleStep_sampleKeys_nodup fmt mf api m st h)

theorem consumeFamilies_sampleKeys_nodup (fmt : Fmt) (api : API) (families : List MetricFamily)
    (dataStore : List Record) :
    ((consumeFamilies fmt api families dataStore).sampleKeys.map Prod.fst).Nodup := by
  have key : ∀ (fams : List MetricFamily) (st : Stores), (st.sampleKeys.map Prod.fst).Nodup →
      ((fams.foldl (fun st mf => prometheusNewFamily fmt mf api st) st).sampleKeys.map
        Prod.fst).Nodup := by
    intro fams
    induction fams with
    | nil => exact fun st h => h
    | cons mf rest ih =>
      intro st h
      exact ih _ (newFamilyLoop_sampleKeys_nodup fmt mf api mf.Metric st h)
  exact key _ _ (by simp)

/-- C16. The data store after `Prometheus` is the initial data store `D`,
untouched, followed by the per-sample records (fully expanded or roll-up) of
the families that are not excluded, in family order and sample order, then by
the records of the merge-key table, one per merge key since the keys of the
table are distinct (the order of the table stands for the iteration order of
the Go map), then, when `Unflatten` is off, by the flattened sample with the
static attributes, as last element. -/
theorem output_order (fmt : Fmt) (families : List MetricFamily) (dataStore : List Record)
    (api : API) :
    Prometheus fmt families dataStore api
        = dataStore ++ perSampleRecords fmt api families
          ++ (consumeFamilies fmt api families dataStore).sampleKeys.map Prod.snd
          ++ (if api.Prometheus.Unflatten = false then
                [applyCustomAttributes (consumeFamilies fmt api families dataStore).flattenedSample
                  api.Prometheus.CustomAttributes]
              else [])
    ∧ ((consumeFamilies fmt api families dataStore).sampleKeys.map Prod.fst).Nodup
    ∧ ((consumeFamilies fmt api families dataStore).sampleKeys.map Prod.snd).length
        = ((consumeFamilies fmt api families dataStore).sampleKeys.map Prod.fst).length := by
  refine ⟨?_, consumeFamilies_sampleKeys_nodup fmt api families dataStore, by simp⟩
  have hds : (consumeFamilies fmt api families dataStore).dataStore
      = dataStore ++ perSampleRecords fmt api families :=
    consumeFamilies_dataStore_aux fmt api families _
  have hpos : 0 < (consumeFamilies fmt api families dataStore).flattenedSample.length :=
    List.length_pos.2 (consumeFamilies_flattened_ne_nil fmt api families dataStore)
  cases hun : api.Prometheus.Unflatten <;> simp [Prometheus, hds, hpos, hun]

/-- Witness of C16: the payload `http_requests_total` followed by a summary
family with a label-less sample and by a label-less gauge, with `Summary` set,
on a data store holding one record. -/
theorem output_order_witness :
    Prometheus integralFmt
        [httpRequestsTotal,
         { Name := "latency", Help := "", Typ := MetricType.SUMMARY,
           Metric := [summarySample [] ⟨5, float2, []⟩] },
         gaugeFamily "x" [gaugeSample [] float5]]
        [[("old", "record")]] (rollupApi "")
      = [[("old", "record")],
         [("name", "latency"), ("help", ""), ("type", "SUMMARY"), ("event_type", "appSummarySample"),
          ("count", "5"), ("sum", "2")],
         [("method", "get"), ("http_requests_total.counter", "5")],
         [("method", "post"), ("http_requests_total.counter", "2")],
         [("event_type", "static"), ("name", "main"), ("x", "5")]] :=
  (output_order integralFmt
    [httpRequestsTotal,
     { Name := "latency", Help := "", Typ := MetricType.SUMMARY,
       Metric := [summarySample [] ⟨5, float2, []⟩] },
     gaugeFamily "x" [gaugeSample [] float5]]
    [[("old", "record")]] (rollupApi "")).1.trans (by decide)

theorem Prometheus_unflatten (fmt : Fmt) (families : List MetricFamily)
    (dataStore : List Record) (api : API) (hun : api.Prometheus.Unflatten = true) :
    Prometheus fmt families dataStore api
      = dataStore ++ (families.filter (fun mf => !excluded mf api)).flatMap
          (fun mf => mf.Metric.map (expandedRecord fmt mf api)) := by
  have hst := foldl_families_unflatten fmt api hun families
    { dataStore := dataStore, flattenedSample := initialFlattened api, sampleKeys := [] }
  simp only [Prometheus, consumeFamilies, hst, hun]
  simp

theorem expandedRecord_congr (fmt : Fmt) (mf : MetricFamily) (api1 api2 : API) (m : Metric)
    (hun : api1.Prometheus.Unflatten = api2.Prometheus.Unflatten)
    (hattrs : api1.Prometheus.CustomAttributes = api2.Prometheus.CustomAttributes) :
    expandedRecord fmt mf api1 m = expandedRecord fmt mf api2 m := by
  simp only [expandedRecord, summaryExpanded, histogramExpanded, newMetric, hun, hattrs]

/-- C17. Two configurations that both have `Unflatten` set and agree on the
static attributes and on `GoMetrics`, in particular two that differ only in
`Summary` and `Histogram`, make `Prometheus` return the same data store on
every payload and every initial data store, hence append the same sequence of
records. -/
theorem rollup_flags_ignored_when_unflatten (fmt : Fmt) (families : List MetricFamily)
    (dataStore : List Record) (api1 api2 : API)
    (hun1 : api1.Prometheus.Unflatten = true) (hun2 : api2.Prometheus.Unflatten = true)
    (hattrs : api1.Prometheus.CustomAttributes = api2.Prometheus.CustomAttributes)
    (hgo : api1.Prometheus.GoMetrics = api2.Prometheus.GoMetrics) :
    Prometheus fmt families dataStore api1 = Prometheus fmt families dataStore api2
    ∧ (Prometheus fmt families dataStore api1).drop dataStore.length
        = (Prometheus fmt families dataStore api2).drop dataStore.length := by
  have hex : ∀ mf, excluded mf api1 = excluded mf api2 := fun mf => by simp [excluded, hgo]
  have hrec : ∀ mf, expandedRecord fmt mf api1 = expandedRecord fmt mf api2 :=
    fun mf => funext fun m =>
      expandedRecord_congr fmt mf api1 api2 m (hun1.trans hun2.symm) hattrs
  have heq : Prometheus fmt families dataStore api1 = Prometheus fmt families dataStore api2 := by
    rw [Prometheus_unflatten fmt families dataStore api1 hun1,
      Prometheus_unflatten fmt families dataStore api2 hun2]
    simp only [hex, hrec]
  exact ⟨heq, by rw [heq]⟩

/-- Witness of C17: a summary family and `http_requests_total`, with
`Unflatten` set, once without and once with both roll-up flags. -/
theorem rollup_flags_ignored_when_unflatten_witness :
    Prometheus integralFmt
        [{ Name := "latency", Help := "", Typ := MetricType.SUMMARY,
           Metric := [summarySample [⟨"method", "get"⟩] ⟨5, float2, []⟩] }, httpRequestsTotal]
        [] (unflattenApi [])
      = Prometheus integralFmt
        [{ Name := "latency", Help := "", Typ := MetricType.SUMMARY,
           Metric := [summarySample [⟨"method", "get"⟩] ⟨5, float2, []⟩] }, httpRequestsTotal]
        []
        { unflattenApi [] with
          Prometheus := { (unflattenApi []).Prometheus with Summary := true, Histogram := true } } :=
  (rollup_flags_ignored_when_unflatten integralFmt
    [{ Name := "latency", Help := "", Typ := MetricType.SUMMARY,
       Metric := [summarySample [⟨"method", "get"⟩] ⟨5, float2, []⟩] }, httpRequestsTotal]
    [] (unflattenApi [])
    { unflattenApi [] with
      Prometheus := { (unflattenApi []).Prometheus with Summary := true, Histogram := true } }
    rfl rfl rfl rfl).1

theorem sampleStep_flattened_unchanged (fmt : Fmt) (mf : MetricFamily) (api : API) (m : Metric)
    (st : Stores)
    (h : mf.Typ = MetricType.SUMMARY ∨ mf.Typ = MetricType.HISTOGRAM ∨ 0 < m.Label.length
      ∨ api.Prometheus.Unflatten = true) :
    (sampleStep fmt mf api m st).flattenedSample = st.flattenedSample := by
  unfold sampleStep
  simp only [mergeCountSum]
  split_ifs <;> first | rfl | (exfalso; simp_all)

theorem newFamilyLoop_flattened_unchanged (fmt : Fmt) (mf : MetricFamily) (api : API)
    (ms : List Metric) (st : Stores)
    (h : mf.Typ = MetricType.SUMMARY ∨ mf.Typ = MetricType.HISTOGRAM
      ∨ ∀ m ∈ ms, 0 < m.Label.length) :
    (newFamilyLoop fmt mf api ms st).flattenedSample = st.flattenedSample := by
  induction ms generalizing st with
  | nil => rfl
  | cons m rest ih =>
    unfold newFamilyLoop
    split_ifs
    · rfl
    · have h1 : mf.Typ = MetricType.SUMMARY ∨ mf.Typ = MetricType.HISTOGRAM
          ∨ ∀ m ∈ rest, 0 < m.Label.length := by
        rcases h with h | h | h
        · exact Or.inl h
        · exact Or.inr (Or.inl h)
        · exact Or.inr (Or.inr (fun x hx => h x (List.mem_cons_of_mem _ hx)))
      have h2 : mf.Typ = MetricType.SUMMARY ∨ mf.Typ = MetricType.HISTOGRAM
          ∨ 0 < m.Label.length ∨ api.Prometheus.Unflatten = true := by
        rcases h with h | h | h
        · exact Or.inl h
        · exact Or.inr (Or.inl h)
        · exact Or.inr (Or.inr (Or.inl (h m (List.mem_cons_self _ _))))
      rw [ih _ h1, sampleStep_flattened_unchanged fmt mf api m st h2]

theorem consumeFamilies_flattened_unchanged (fmt : Fmt) (api : API)
    (families : List MetricFamily) (dataStore : List Record)
    (h : ∀ mf ∈ families, noFlattenedSample api mf) :
    (consumeFamilies fmt api families dataStore).flattenedSample = initialFlattened api := by
  have key : ∀ (fams : List MetricFamily) (st : Stores),
      (∀ mf ∈ fams, noFlattenedSample api mf) →
      (fams.foldl (fun st mf => prometheusNewFamily fmt mf api st) st).flattenedSample
        = st.flattenedSample := by
    intro fams
    induction fams with
    | nil => exact fun st _ => rfl
    | cons mf rest ih =>
      intro st hall
      rw [List.foldl_cons, ih _ (fun x hx => hall x (List.mem_cons_of_mem _ hx))]
      rcases hall mf (List.mem_cons_self _ _) with hex | hrest
      · rw [prometheusNewFamily, newFamilyLoop_of_excluded fmt mf api _ st hex]
      · exact newFamilyLoop_flattened_unchanged fmt mf api mf.Metric st hrest
  exact key families _ h

theorem initialFlattened_eq (api : API) :
    initialFlattened api
      = [("event_type",
          if api.Prometheus.FlattenedEvent ≠ "" then api.Prometheus.FlattenedEvent
          else api.Name ++ "Sample")] := by
  unfold initialFlattened
  split_ifs <;> rfl

/-- C18. With `Unflatten` off the flattened sample is emitted for every
payload: the last record `Prometheus` appends is the flattened sample overlaid
with the static attributes.  When no sample reaches the flattened sample, in
particular for the empty payload, that record is the single field `event_type`,
equal to `FlattenedEvent` when it is not empty and to the API name followed by
`Sample` otherwise, overlaid with the static attributes. -/
theorem flattened_always_emitted (fmt : Fmt) (families : List MetricFamily)
    (dataStore : List Record) (api : API) (hun : api.Prometheus.Unflatten = false) :
    Prometheus fmt families dataStore api
        = (consumeFamilies fmt api families dataStore).dataStore
          ++ (consumeFamilies fmt api families dataStore).sampleKeys.map Prod.snd
          ++ [applyCustomAttributes (consumeFamilies fmt api families dataStore).flattenedSample
                api.Prometheus.CustomAttributes]
    ∧ ((∀ mf ∈ families, noFlattenedSample api mf) →
        Prometheus fmt families dataStore api
          = (consumeFamilies fmt api families dataStore).dataStore
            ++ (consumeFamilies fmt api families dataStore).sampleKeys.map Prod.snd
            ++ [applyCustomAttributes
                  [("event_type",
                    if api.Prometheus.FlattenedEvent ≠ "" then api.Prometheus.FlattenedEvent
                    else api.Name ++ "Sample")]
                  api.Prometheus.CustomAttributes])
    ∧ Prometheus fmt [] dataStore api
        = dataStore
          ++ [applyCustomAttributes
                [("event_type",
                  if api.Prometheus.FlattenedEvent ≠ "" then api.Prometheus.FlattenedEvent
                  else api.Name ++ "Sample")]
                api.Prometheus.CustomAttributes] := by
  have hmain : ∀ fams : List MetricFamily, Prometheus fmt fams dataStore api
      = (consumeFamilies fmt api fams dataStore).dataStore
        ++ (consumeFamilies fmt api fams dataStore).sampleKeys.map Prod.snd
        ++ [applyCustomAttributes (consumeFamilies fmt api fams dataStore).flattenedSample
              api.Prometheus.CustomAttributes] := by
    intro fams
    have hpos : 0 < (consumeFamilies fmt api fams dataStore).flattenedSample.length :=
      List.length_pos.2 (consumeFamilies_flattened_ne_nil fmt api fams dataStore)
    simp [Prometheus, hun, hpos]
  refine ⟨hmain families, ?_, ?_⟩
  · intro hall
    rw [hmain families, consumeFamilies_flattened_unchanged fmt api families dataStore hall,
      initialFlattened_eq]
  · rw [hmain []]
    simp [consumeFamilies, initialFlattened_eq]

/-- Witness of C18: the empty payload, then a payload with one labelled
counter family, with the static attribute `env=prod`. -/
theorem flattened_always_emitted_witness :
    Prometheus integralFmt [] [] (plainApi [("env", "prod")])
        = [] ++ [applyCustomAttributes [("event_type", "appSample")] [("env", "prod")]]
    ∧ Prometheus integralFmt [] [] (plainApi [("env", "prod")])
        = [[("event_type", "appSample"), ("env", "prod")]]
    ∧ Prometheus integralFmt [httpRequestsTotal] [] (plainApi [("env", "prod")])
        = [[("method", "get"), ("http_requests_total.counter", "5")],
           [("method", "post"), ("http_requests_total.counter", "2")],
           [("event_type", "appSample"), ("env", "prod")]] :=
  ⟨(flattened_always_emitted integralFmt [] [] (plainApi [("env", "prod")]) rfl).2.2,
    by decide,
    ((flattened_always_emitted integralFmt [httpRequestsTotal] [] (plainApi [("env", "prod")])
      rfl).2.1 (by decide)).trans (by decide)⟩

/-- C19. A summary sample without labels processed with `Unflatten` and
`Summary` off, and a histogram sample without labels processed with
`Unflatten` and `Histogram` off, leave the data store, the merge-key table and
the flattened sample as they were. -/
theorem labelless_summary_histogram_dropped (fmt : Fmt) (mf : MetricFamily) (api : API)
    (m : Metric) (st : Stores) (hlab : m.Label = []) (hun : api.Prometheus.Unflatten = false)
    (hmode : (mf.Typ = MetricType.SUMMARY ∧ api.Prometheus.Summary = false)
      ∨ (mf.Typ = MetricType.HISTOGRAM ∧ api.Prometheus.Histogram = false)) :
    sampleStep fmt mf api m st = st := by
  rcases hmode with ⟨ht, hf⟩ | ⟨ht, hf⟩
  · simp [sampleStep, ht, hf, hun, hlab]
  · simp [sampleStep, ht, hf, hun, hlab]

/-- Witness of C19: a summary sample without labels, count 5 and sum 2, with
every flag off. -/
theorem labelless_summary_histogram_dropped_witness :
    sampleStep integralFmt
        { Name := "latency", Help := "", Typ := MetricType.SUMMARY, Metric := [] } (plainApi [])
        (summarySample [] ⟨5, float2, [⟨float2, float5⟩]⟩) (initialStores (plainApi []))
      = initialStores (plainApi []) :=
  labelless_summary_histogram_dropped integralFmt
    { Name := "latency", Help := "", Typ := MetricType.SUMMARY, Metric := [] } (plainApi [])
    (summarySample [] ⟨5, float2, [⟨float2, float5⟩]⟩) (initialStores (plainApi [])) rfl rfl
    (Or.inl ⟨rfl, rfl⟩)

theorem mapGet_base_fields (name help typ c v : String)
    (h : mapGet (mapSet (mapSet (mapSet ([] : Record) "name" name) "help" help) "type" typ) c
      = some v) :
    c = "name" ∨ c = "help" ∨ c = "type" := by
  by_cases h1 : c = "type"
  · exact Or.inr (Or.inr h1)
  · rw [mapGet_mapSet_ne _ _ _ _ h1] at h
    by_cases h2 : c = "help"
    · exact Or.inr (Or.inl h2)
    · rw [mapGet_mapSet_ne _ _ _ _ h2] at h
      by_cases h3 : c = "name"
      · exact Or.inl h3
      · rw [mapGet_mapSet_ne _ _ _ _ h3] at h
        simp [mapGet] at h

/-- C20. A gauge, counter or untyped sample that carries a label leaves the
flattened sample unchanged when `Unflatten` is off; more generally a sample
changes the flattened sample only if it has no label.  The record in which the
`KeyMerge` candidates of a label-less sample are looked up has no field from a
label: a candidate that is a field of it is one of `name`, `help`, `type`,
`value` or the name of a static attribute. -/
theorem key_merge_never_from_label (fmt : Fmt) (mf : MetricFamily) (api : API) (m : Metric)
    (st : Stores) :
    (0 < m.Label.length → api.Prometheus.Unflatten = false →
        (sampleStep fmt mf api m st).flattenedSample = st.flattenedSample)
    ∧ ((sampleStep fmt mf api m st).flattenedSample ≠ st.flattenedSample → m.Label = [])
    ∧ (m.Label = [] → ∀ c v, mapGet (valueMetric fmt mf api m) c = some v →
        c ∈ ["name", "help", "type", "value"]
          ∨ c ∈ api.Prometheus.CustomAttributes.map Prod.fst) := by
  refine ⟨?_, ?_, ?_⟩
  · intro hlab _
    exact sampleStep_flattened_unchanged fmt mf api m st (Or.inr (Or.inr (Or.inl hlab)))
  · intro hne
    by_contra hlab
    exact hne (sampleStep_flattened_unchanged fmt mf api m st
      (Or.inr (Or.inr (Or.inl (List.length_pos.2 hlab)))))
  · intro hlab c v hc
    by_cases hv : c = "value"
    · simp [hv]
    · rw [valueMetric, mapGet_mapSet_ne _ _ _ _ hv, mapGet_newMetric] at hc
      have hl : lastLabelValue m c = none := by simp [lastLabelValue, hlab, lastWrite]
      rw [hl] at hc
      cases ha : lastWrite api.Prometheus.CustomAttributes c with
      | some w =>
        right
        exact List.mem_map.2 ⟨(c, w), lastWrite_mem ha, rfl⟩
      | none =>
        rw [ha] at hc
        rcases mapGet_base_fields _ _ _ c v hc with h | h | h <;> simp [h]

/-- Witness of C20: a gauge `{zone="a"}` processed with the candidate `zone` in
`KeyMerge` goes to the merge-key table and leaves the flattened sample as it
was. -/
theorem key_merge_never_from_label_witness :
    (sampleStep integralFmt (gaugeFamily "x" []) (keyMergeApi [] ["zone"])
        (gaugeSample [⟨"zone", "a"⟩] float5) (initialStores (keyMergeApi [] ["zone"]))).flattenedSample
      = (initialStores (keyMergeApi [] ["zone"])).flattenedSample
    ∧ (sampleStep integralFmt (gaugeFamily "x" []) (keyMergeApi [] ["zone"])
        (gaugeSample [⟨"zone", "a"⟩] float5) (initialStores (keyMergeApi [] ["zone"])))
      = { dataStore := [], flattenedSample := [("event_type", "appSample")],
          sampleKeys := [("a", [("zone", "a"), ("x.gauge", "5")])] } :=
  ⟨(key_merge_never_from_label integralFmt (gaugeFamily "x" []) (keyMergeApi [] ["zone"])
      (gaugeSample [⟨"zone", "a"⟩] float5) (initialStores (keyMergeApi [] ["zone"]))).1
      (by decide) rfl,
    by decide⟩

end NriFlex
